import Mathlib

/-!
# ARBO / ZikaVD model enrichment: forward model, likelihood and QoI

A shallow embedding of `model.cpp`, `likelihood.cpp` and `qoi.cpp`
(`ZikaVD-1.0/model_enrichment/src`) together with the statements proved about them.

Modelling conventions.

* `double` values are exact rationals (`ℚ`): rounding, infinities and NaN are not modelled.
* `std::vector<double>` and C arrays are `List ℚ`.  A read or write outside the extent
  of a vector is not defined by C++; here it stops the computation with
  `Fault.outOfRange`.  The one exception is the local copy `delta` inside
  `zikaFunction`, see `rdDelta`.
* `unsigned int` arithmetic is arithmetic modulo `2 ^ 32` (`u32`).
* A C++ `for (unsigned i = lo; i < hi; i++)` is `forLoop body (hi - lo) lo`; the loop
  counter is a natural number, and the statements carry the size bounds under which it
  and the index expressions stay below `2 ^ 32`.
* `while` loops carry a fuel argument; running out of it is `Fault.outOfFuel`.
* The GSL driver (`gsl_odeiv2_driver_alloc_y_new`, `gsl_odeiv2_driver_apply`) is an
  external library and enters as a parameter (`Integrator`).
* The MPI barrier and the commented-out console output have no counterpart.
-/

namespace ARBO

/-! ## Outcomes -/

/-- Ways in which an evaluation can end without a value. -/
inductive Fault where
  /-- a C++ `throw` of an `int` value -/
  | thrown (code : Int)
  /-- a failed `assert`: the process aborts -/
  | assertFailed
  /-- an access outside the extent of a vector or array -/
  | outOfRange
  /-- the fuel of a `while` loop ran out -/
  | outOfFuel
deriving DecidableEq, Repr

/-- Result of a computation that may end with a `Fault`. -/
abbrev Res (α : Type) : Type := Except Fault α

/-- Value of an `unsigned int` expression. -/
def u32 (n : Nat) : Nat := n % 2 ^ 32

/-- Read `a[i]`. -/
def rd (a : List ℚ) (i : Nat) : Res ℚ :=
  match a[i]? with
  | some v => .ok v
  | none => .error .outOfRange

/-- Write `a[i] = v`. -/
def wr (a : List ℚ) (i : Nat) (v : ℚ) : Res (List ℚ) :=
  if i < a.length then .ok (a.set i v) else .error .outOfRange

/-- The loop `for (unsigned i = lo; i < lo + count; i++) s = body i s`. -/
def forLoop {α : Type} (body : Nat → α → Res α) : (count : Nat) → (i : Nat) → α → Res α
  | 0, _, s => .ok s
  | n + 1, i, s =>
    match body i s with
    | .ok s1 => forLoop body n (i + 1) s1
    | .error e => .error e

/-! ## `dynamics_info.h` -/

/-- The struct `dynamics_info`; `Deltas` is the parameter buffer shared with the sampler. -/
structure dynamics_info where
  N_s : Nat
  N_times : Nat
  Inad_type : Nat
  Params_factor : Nat
  Deltas : List ℚ
deriving Repr

/-! ## `model.cpp` -/

/-- The macro `__EPS_ABS` of lines 24-26 of `model.cpp`. -/
def __EPS_ABS : ℚ := 1e-8

/-- The macro `__EPS_REL` of lines 27-29 of `model.cpp`. -/
def __EPS_REL : ℚ := 1e-8

/-- The GSL status code `GSL_SUCCESS`. -/
def GSL_SUCCESS : Int := 0

/-- The GSL status code `GSL_FAILURE`. -/
def GSL_FAILURE : Int := -1

/-- Read `delta[k]` of the local copy `delta = dyn.Deltas` in `zikaFunction`.  The source
never consults `delta.size()`; for an index past the end the value read is whatever lies
behind the buffer, here `junk k` for an arbitrary `junk`, so that statements about
`zikaFunction` hold whatever such a read returns. -/
def rdDelta (delta : List ℚ) (junk : Nat → ℚ) (k : Nat) : ℚ :=
  match delta[k]? with
  | some v => v
  | none => junk k

/-- Lines 57-63 of `model.cpp`: `pops[i] = Y[i]; if (pops[i] <= 0) pops[i] = 0;`
for `i < n_s + 1`, starting from `pops(n_s + 1, 0)`. -/
def clampPops (n_s : Nat) (Y : List ℚ) : Res (List ℚ) :=
  forLoop (fun i pops => do
      let pops ← wr pops i (← rd Y i)
      if (← rd pops i) ≤ 0 then wr pops i 0 else pure pops)
    (u32 (n_s + 1)) 0 (List.replicate (u32 (n_s + 1)) 0)

/-- Lines 66-73 of `model.cpp`: the SEIR-SEI equations written into `dYdt[0..7]`. -/
def seirSei (pops dYdt : List ℚ) : Res (List ℚ) := do
  let bh : ℚ := 1 / 11.3
  let ah : ℚ := 1 / 5.9
  let g : ℚ := 1 / 7.9
  let d : ℚ := 1 / 11
  let bv : ℚ := 1 / 8.6
  let av : ℚ := 1 / 9.1
  let nv : ℚ := 1
  let nh : ℚ := 206 * 10 ^ 6
  let dYdt ← wr dYdt 0 (-bh * (← rd pops 0) * (← rd pops 6) / nv)
  let dYdt ← wr dYdt 1 (bh * (← rd pops 0) * (← rd pops 6) / nv - ah * (← rd pops 1))
  let dYdt ← wr dYdt 2 (ah * (← rd pops 1) - g * (← rd pops 2))
  let dYdt ← wr dYdt 3 (g * (← rd pops 2))
  let dYdt ← wr dYdt 4 (d * nv - bv * (← rd pops 4) * (← rd pops 2) / nh - d * (← rd pops 4))
  let dYdt ← wr dYdt 5 (bv * (← rd pops 4) * (← rd pops 2) / nh - (av + d) * (← rd pops 5))
  let dYdt ← wr dYdt 6 (av * (← rd pops 5) - d * (← rd pops 6))
  wr dYdt 7 (ah * (← rd pops 1))

/-- Body of the loop of lines 77-79 (`inad_type == 0`): `dYdt[i] += 0.`. -/
def inadBody0 (i : Nat) (dYdt : List ℚ) : Res (List ℚ) := do
  wr dYdt i ((← rd dYdt i) + 0)

/-- Body of the loop of lines 82-85 (`inad_type == 1`). -/
def inadBody1 (pf : Nat) (delta : Nat → ℚ) (pops : List ℚ) (i : Nat) (dYdt : List ℚ) :
    Res (List ℚ) := do
  wr dYdt i ((← rd dYdt i) +
    (delta (u32 (pf * i + 0)) * (← rd pops i) + delta (u32 (pf * i + 1)) * |(← rd dYdt i)|))

/-- Body of the loop of lines 88-91 (`inad_type == 2`). -/
def inadBody2 (pf : Nat) (delta : Nat → ℚ) (pops : List ℚ) (i : Nat) (dYdt : List ℚ) :
    Res (List ℚ) := do
  wr dYdt i ((← rd dYdt i) +
    (delta (u32 (pf * i + 0)) * (← rd pops i) + delta (u32 (pf * i + 1)) * |(← rd dYdt i)| +
      delta (u32 (pf * i + 2)) * (← rd pops i) ^ 2 + delta (u32 (pf * i + 3)) * (← rd dYdt i) ^ 2))

/-- Body of the inner loop of lines 95-98 (`inad_type == 3`): two successive updates of
`dYdt[i]`, each reading the current `dYdt[j]`. -/
def inadBody3 (pf : Nat) (delta : Nat → ℚ) (pops : List ℚ) (i j : Nat) (dYdt : List ℚ) :
    Res (List ℚ) := do
  let dYdt ← wr dYdt i ((← rd dYdt i) +
    (delta (u32 (pf * i + 2 * j + 0)) * (← rd pops j) +
      delta (u32 (pf * i + 2 * j + 1)) * |(← rd dYdt j)|))
  wr dYdt i ((← rd dYdt i) +
    (delta (u32 (pf * i + 2 * j + 2)) * (← rd pops j) ^ 2 +
      delta (u32 (pf * i + 2 * j + 3)) * (← rd dYdt j) ^ 2))

/-- Lines 76-100 of `model.cpp`: the inadequacy formulation selected by `inad_type`. -/
def inadequacy (inad_type n_s pf : Nat) (delta : Nat → ℚ) (pops dYdt : List ℚ) :
    Res (List ℚ) :=
  if inad_type = 0 then forLoop inadBody0 n_s 0 dYdt
  else if inad_type = 1 then forLoop (inadBody1 pf delta pops) n_s 0 dYdt
  else if inad_type = 2 then forLoop (inadBody2 pf delta pops) n_s 0 dYdt
  else if inad_type = 3 then
    forLoop (fun i dYdt => forLoop (inadBody3 pf delta pops i) n_s 0 dYdt) n_s 0 dYdt
  else .ok dYdt

/-- The right-hand side `zikaFunction(t, Y, dYdt, params)`: returns the status and the
array `dYdt` after the call.  The test `Y[7] > 3.0e9` guards an empty block (its `throw`
is commented out in the source). -/
def zikaFunction (dyn : dynamics_info) (junk : Nat → ℚ) (_t : ℚ) (Y dYdt : List ℚ) :
    Res (Int × List ℚ) := do
  let n_s := dyn.N_s
  let inad_type := dyn.Inad_type
  let pf := dyn.Params_factor
  let delta := rdDelta dyn.Deltas junk
  let pops ← clampPops n_s Y
  let dYdt ← seirSei pops dYdt
  let dYdt ← inadequacy inad_type n_s pf delta pops dYdt
  if (← rd Y 7) > 3.0e9 then pure (GSL_SUCCESS, dYdt) else pure (GSL_SUCCESS, dYdt)

/-- The Jacobian callback `zikaJacobian`: it writes nothing and reports success. -/
def zikaJacobian (_t : ℚ) (_Y : List ℚ) (dfdY dfdt : List ℚ) : Int × List ℚ × List ℚ :=
  (GSL_SUCCESS, dfdY, dfdt)

/-- The stepping algorithms of `gsl_odeiv2.h` that the driver can be allocated with. -/
inductive gsl_odeiv2_step_type where
  | rk2 | rk4 | rkf45 | rkck | rk8pd
deriving DecidableEq, Repr

/-- The struct `gsl_odeiv2_system`; the `params` pointer is captured by `function`. -/
structure gsl_odeiv2_system where
  function : ℚ → List ℚ → List ℚ → Res (Int × List ℚ)
  jacobian : ℚ → List ℚ → List ℚ → List ℚ → Int × List ℚ × List ℚ
  dimension : Nat

/-- The part of GSL used by `zikaComputeModel`, for a driver state `σ`:
`gsl_odeiv2_driver_alloc_y_new (sys, T, hstart, epsabs, epsrel)` and
`gsl_odeiv2_driver_apply (d, &t, t1, y)`, which returns the status together with the
updated driver, time and state. -/
structure Integrator (σ : Type) where
  alloc_y_new : gsl_odeiv2_system → gsl_odeiv2_step_type → ℚ → ℚ → ℚ → σ
  apply : σ → ℚ → ℚ → List ℚ → Int × σ × ℚ × List ℚ

/-- Lines 129-134 of `model.cpp`: the system `{zikaFunction, zikaJacobian, dim, dyn}` and
the driver allocated for it, with the stepper `gsl_odeiv2_step_rkf45`, the initial step
`h = 1e-10` and the arguments `1e-8` (`epsabs`) and `1e-4` (`epsrel`). -/
def zikaDriver {σ : Type} (G : Integrator σ) (dyn : dynamics_info) (junk : Nat → ℚ)
    (dim : Nat) : σ :=
  let sys : gsl_odeiv2_system := ⟨zikaFunction dyn junk, zikaJacobian, dim⟩
  let h : ℚ := 1e-10
  G.alloc_y_new sys .rkf45 h 1e-8 1e-4

/-- Lines 137-140 of `model.cpp`: `Y[i] = initialValues[i]; returnValues[i] = initialValues[i]`
for `i < dim`; the state is the pair `(Y, returnValues)`. -/
def initLoop (dim : Nat) (initialValues returnValues : List ℚ) : Res (List ℚ × List ℚ) :=
  forLoop (fun i (s : List ℚ × List ℚ) => do
      let Y ← wr s.1 i (← rd initialValues i)
      let rv ← wr s.2 i (← rd initialValues i)
      pure (Y, rv))
    dim 0 (List.replicate dim 0, returnValues)

/-- Lines 149-181 of `model.cpp`: `while (t < finalTime)` around
`gsl_odeiv2_driver_apply`.  `UQ_FATAL_TEST_MACRO` is not defined in `model.cpp` (no QUESO
header is included there), so a status other than `GSL_SUCCESS` reaches the `assert`,
which fails (a build without `NDEBUG`). -/
def integrateUntil {σ : Type} (G : Integrator σ) (finalTime : ℚ) :
    (fuel : Nat) → σ → ℚ → List ℚ → Res (σ × ℚ × List ℚ)
  | 0, d, t, Y => if t < finalTime then .error .outOfFuel else .ok (d, t, Y)
  | fuel + 1, d, t, Y =>
    if t < finalTime then
      match G.apply d t finalTime Y with
      | (status, d1, t1, Y1) =>
        if status ≠ GSL_SUCCESS then .error .assertFailed
        else integrateUntil G finalTime fuel d1 t1 Y1
    else .ok (d, t, Y)

/-- Lines 185-186 of `model.cpp`: `returnValues[dim*i + j] = Y[j]` for `j < dim`. -/
def saveRow (dim i : Nat) (Y returnValues : List ℚ) : Res (List ℚ) :=
  forLoop (fun j rv => do wr rv (u32 (dim * i + j)) (← rd Y j)) dim 0 returnValues

/-- Body of the loop of lines 147-187 of `model.cpp` for the time index `i`; the state is
`(d, t, Y, returnValues)`. -/
def timeStep {σ : Type} (G : Integrator σ) (fuel dim : Nat) (timePoints : List ℚ) (i : Nat)
    (s : σ × ℚ × List ℚ × List ℚ) : Res (σ × ℚ × List ℚ × List ℚ) := do
  let finalTime ← rd timePoints i
  let r ← integrateUntil G finalTime fuel s.1 s.2.1 s.2.2.1
  let rv ← saveRow dim i r.2.2 s.2.2.2
  pure (r.1, r.2.1, r.2.2, rv)

/-- The forward model `zikaComputeModel(initialValues, timePoints, dyn, returnValues)`:
returns `returnValues` after the call.  `fuel` bounds the iterations of each `while`
loop.  The local `n_s = dim - 1` of the source is never read and
`gsl_odeiv2_driver_free` has no effect on the result; both are left out. -/
def zikaComputeModel {σ : Type} (G : Integrator σ) (fuel : Nat) (junk : Nat → ℚ)
    (initialValues timePoints : List ℚ) (dyn : dynamics_info) (returnValues : List ℚ) :
    Res (List ℚ) := do
  let dim := u32 initialValues.length
  let d := zikaDriver G dyn junk dim
  let s ← initLoop dim initialValues returnValues
  let t : ℚ := 7.0
  let s ← forLoop (timeStep G fuel dim timePoints) (timePoints.length - 1) 1 (d, t, s.1, s.2)
  pure s.2.2.2

/-! ## `likelihood.cpp` -/

/-- The struct `likelihoodRoutine_Data` without its environment pointer. -/
structure likelihoodRoutine_Data where
  m_times : List ℚ
  m_ics : List ℚ
  m_csc : List ℚ
  m_var : ℚ
  m_dynMain : dynamics_info

/-- The loop `timePoints[i] = times[i]` for `i < n_times` on `timePoints(n_times, 0.)`
(lines 85-89 of `likelihood.cpp`, lines 75-78 of `qoi.cpp`). -/
def copyTimes (n_times : Nat) (times : List ℚ) : Res (List ℚ) :=
  forLoop (fun i tp => do wr tp i (← rd times i)) n_times 0 (List.replicate n_times 0)

/-- The loop `dyn->Deltas[i] = paramValues[i]` for `i < n_params` (lines 98-102 of
`likelihood.cpp`, lines 85-88 of `qoi.cpp`); returns the buffer `Deltas` after the loop. -/
def copyParams (n_params : Nat) (paramValues Deltas : List ℚ) : Res (List ℚ) :=
  forLoop (fun i D => do wr D i (← rd paramValues i)) n_params 0 Deltas

/-- Lines 109-117 of `likelihood.cpp`: `diff = returnValues[dim*j + 7] - csc[j];
misfitValue += diff * diff / var` for `j < n_times`, from `misfitValue = 0`. -/
def misfitLoop (dim n_times : Nat) (returnValues csc : List ℚ) (var : ℚ) : Res ℚ :=
  forLoop (fun j misfitValue => do
      let diff := (← rd returnValues (u32 (dim * j + 7))) - (← rd csc j)
      pure (misfitValue + diff * diff / var))
    n_times 0 0

/-- The `try { ... } catch (int exception) { misfitValue = 1000000; }` of lines 105-121 of
`likelihood.cpp`, applied to the outcome of the `try` block: only an `int` exception is
caught, any other fault passes through. -/
def catchInt (tryBlock : Res ℚ) : Res ℚ :=
  match tryBlock with
  | .ok misfitValue => .ok misfitValue
  | .error (.thrown _) => .ok 1000000
  | .error e => .error e

/-- The routine `likelihoodRoutine(paramValues, ..., functionDataPtr, ...)`: returns the
log-likelihood value together with the buffer `dyn->Deltas` after the call. -/
def likelihoodRoutine {σ : Type} (G : Integrator σ) (fuel : Nat) (junk : Nat → ℚ)
    (paramValues : List ℚ) (data : likelihoodRoutine_Data) : Res (ℚ × List ℚ) := do
  let times := data.m_times
  let ics := data.m_ics
  let csc := data.m_csc
  let var := data.m_var
  let dyn := data.m_dynMain
  let n_s := dyn.N_s
  let n_times := dyn.N_times
  let n_params := u32 (dyn.Params_factor * n_s)
  let dim := u32 (n_s + 1)
  let timePoints ← copyTimes n_times times
  let returnValues := List.replicate (u32 (n_times * dim)) (0 : ℚ)
  let Deltas ← copyParams n_params paramValues dyn.Deltas
  let dyn := { dyn with Deltas := Deltas }
  let misfitValue ← catchInt (do
    let returnValues ← zikaComputeModel G fuel junk ics timePoints dyn returnValues
    misfitLoop dim n_times returnValues csc var)
  pure (-0.5 * misfitValue, Deltas)

/-! ## `qoi.cpp` -/

/-- The struct `qoiRoutine_Data` without its environment pointer. -/
structure qoiRoutine_Data where
  m_times : List ℚ
  m_ics : List ℚ
  m_dynMain : dynamics_info

/-- Lines 94-99 of `qoi.cpp`, the copy in the `try` block: `qoiValues[j] = returnValues[j]`
for `j < returnValues.size()`. -/
def qoiCopyTry (returnValues qoiValues : List ℚ) : Res (List ℚ) :=
  forLoop (fun j q => do wr q j (← rd returnValues j)) returnValues.length 0 qoiValues

/-- Lines 102-105 of `qoi.cpp`, the copy in the `catch` block: `qoiValues[j] = returnValues[j]`
for `j < returnValues.size()`. -/
def qoiCopyCatch (returnValues qoiValues : List ℚ) : Res (List ℚ) :=
  forLoop (fun j q => do wr q j (← rd returnValues j)) returnValues.length 0 qoiValues

/-- The `try`/`catch (int exception)` of lines 91-106 of `qoi.cpp`, applied to the outcome
of the call of the forward model.  `buffer` is `returnValues` as the handler finds it; the
forward model raises no `int` exception, and the routine passes the buffer as allocated. -/
def qoiFinish (forward : Res (List ℚ)) (buffer qoiValues : List ℚ) : Res (List ℚ) :=
  match forward with
  | .ok returnValues => qoiCopyTry returnValues qoiValues
  | .error (.thrown _) => qoiCopyCatch buffer qoiValues
  | .error e => .error e

/-- The routine `qoiRoutine(paramValues, ..., functionDataPtr, qoiValues, ...)`: returns
`qoiValues` together with the buffer `dyn->Deltas` after the call. -/
def qoiRoutine {σ : Type} (G : Integrator σ) (fuel : Nat) (junk : Nat → ℚ)
    (paramValues : List ℚ) (data : qoiRoutine_Data) (qoiValues : List ℚ) :
    Res (List ℚ × List ℚ) := do
  let times := data.m_times
  let ics := data.m_ics
  let dyn := data.m_dynMain
  let n_s := dyn.N_s
  let n_times := dyn.N_times
  let pf := dyn.Params_factor
  let n_params := u32 (pf * n_s)
  let dim := u32 (n_s + 1)
  let timePoints ← copyTimes n_times times
  let returnValues := List.replicate (u32 (n_times * dim)) (0 : ℚ)
  let Deltas ← copyParams n_params paramValues dyn.Deltas
  let dyn := { dyn with Deltas := Deltas }
  let qoiValues ← qoiFinish (zikaComputeModel G fuel junk ics timePoints dyn returnValues)
    returnValues qoiValues
  pure (qoiValues, Deltas)

/-! ## Quantities used in the statements -/

/-- The value `pops[i]` for the state `Y`: `Y[i]`, with a non-positive value replaced
by `0`. -/
def pop (Y : List ℚ) (i : Nat) : ℚ := max (Y.getD i 0) 0

/-- The structural SEIR-SEI derivative of entry `i` (the compartments `0..6` and the
cumulative incidence `7`) for the populations `p`, with the rate constants of
`zikaFunction`. -/
def structural (p : Nat → ℚ) : Nat → ℚ
  | 0 => -(1 / 11.3) * p 0 * p 6 / 1
  | 1 => 1 / 11.3 * p 0 * p 6 / 1 - 1 / 5.9 * p 1
  | 2 => 1 / 5.9 * p 1 - 1 / 7.9 * p 2
  | 3 => 1 / 7.9 * p 2
  | 4 => 1 / 11 * 1 - 1 / 8.6 * p 4 * p 2 / (206 * 10 ^ 6) - 1 / 11 * p 4
  | 5 => 1 / 8.6 * p 4 * p 2 / (206 * 10 ^ 6) - (1 / 9.1 + 1 / 11) * p 5
  | 6 => 1 / 9.1 * p 5 - 1 / 11 * p 6
  | 7 => 1 / 5.9 * p 1
  | _ => 0

/-- The state `Y` with every non-positive entry replaced by `0`. -/
def clamp (Y : List ℚ) : List ℚ := Y.map (fun y => if y ≤ 0 then 0 else y)

/-- The value of `dYdt[i]` after the first statement of the inner loop body of the
cross-term formulation. -/
def crossFirst (pf : Nat) (delta : Nat → ℚ) (pops : List ℚ) (i j : Nat) (d : List ℚ) : ℚ :=
  d.getD i 0 + (delta (u32 (pf * i + 2 * j + 0)) * pops.getD j 0 +
    delta (u32 (pf * i + 2 * j + 1)) * |d.getD j 0|)

/-- The four products that the cross-term formulation adds to `dYdt[i]` for the
compartment `j`, when the first statement of the loop body reads `x` from `dYdt[j]` and
the second reads `y`. -/
def crossTerms (pf : Nat) (delta : Nat → ℚ) (p : Nat → ℚ) (i j : Nat) (x y : ℚ) : ℚ :=
  delta (u32 (pf * i + 2 * j + 0)) * p j + delta (u32 (pf * i + 2 * j + 1)) * |x| +
    delta (u32 (pf * i + 2 * j + 2)) * p j ^ 2 + delta (u32 (pf * i + 2 * j + 3)) * y ^ 2

/-- The value that the first statement of the loop body reads from `dYdt[j]` while
compartment `i` is updated from the array `D`: `D[j]`, except for `j = i`, where the
running value of `dYdt[i]` is read. -/
def crossRead1 (pf : Nat) (delta : Nat → ℚ) (p : Nat → ℚ) (D : Nat → ℚ) (i j : Nat) : ℚ :=
  if j = i then D i + ∑ l ∈ Finset.range i, crossTerms pf delta p i l (D l) (D l) else D j

/-- The value that the second statement of the loop body reads from `dYdt[j]`: `D[j]`,
except for `j = i`, where it is the value just written by the first statement. -/
def crossRead2 (pf : Nat) (delta : Nat → ℚ) (p : Nat → ℚ) (D : Nat → ℚ) (i j : Nat) : ℚ :=
  if j = i then
    crossRead1 pf delta p D i i + (delta (u32 (pf * i + 2 * i + 0)) * p i +
      delta (u32 (pf * i + 2 * i + 1)) * |crossRead1 pf delta p D i i|)
  else D j

/-- A driver on which every call that has to advance reports `GSL_SUCCESS`, reaches the
target time and keeps the dimension of the state, as `gsl_odeiv2_driver_apply` does on
success. -/
def Integrator.Reaches {σ : Type} (G : Integrator σ) : Prop :=
  ∀ d t t1 y, t < t1 →
    (G.apply d t t1 y).1 = GSL_SUCCESS ∧ t1 ≤ (G.apply d t t1 y).2.2.1 ∧
      (G.apply d t t1 y).2.2.2.length = y.length

/-- The driver, time and state after the time points `1..i` have been processed from the
driver `d0` and the state `Y0` at time `7`: for each time point one call of the driver
when the time point lies ahead, no call otherwise. -/
def stateAt {σ : Type} (G : Integrator σ) (d0 : σ) (Y0 timePoints : List ℚ) :
    Nat → σ × ℚ × List ℚ
  | 0 => (d0, 7.0, Y0)
  | i + 1 =>
    let s := stateAt G d0 Y0 timePoints i
    if s.2.1 < timePoints.getD (i + 1) 0 then
      (G.apply s.1 s.2.1 (timePoints.getD (i + 1) 0) s.2.2).2
    else s

/-- The term that the FULL_QUADRATIC_CROSS_TERM sentence of the specification adds to a
compartment: the sum over `j < n_s` of
`δ[4j]*pop[j] + δ[4j+1]*|f_j| + δ[4j+2]*pop[j]^2 + δ[4j+3]*f_j^2`, with `f` the structural
derivative. -/
def claimedCrossTerm (n_s : Nat) (delta Y : List ℚ) : ℚ :=
  ((List.range n_s).map (fun j =>
    delta.getD (4 * j) 0 * pop Y j + delta.getD (4 * j + 1) 0 * |structural (pop Y) j| +
      delta.getD (4 * j + 2) 0 * pop Y j ^ 2 +
      delta.getD (4 * j + 3) 0 * structural (pop Y) j ^ 2)).sum

/-- The value that the likelihood sentence of the specification gives for a trajectory
`traj` of `N + 1` rows of eight entries (row 0 the initial condition):
`-0.5 * Σ_{k = 1..N} (C_k - cases_k)^2 / var`, with `C_k = traj[8k + 7]` the cumulative
incidence of row `k` and `cases_k = csc[k - 1]` the `k`-th observed value. -/
def claimedLikelihood (traj csc : List ℚ) (var : ℚ) (N : Nat) : ℚ :=
  -0.5 * ((List.range N).map (fun k =>
    (traj.getD (8 * (k + 1) + 7) 0 - csc.getD k 0) ^ 2 / var)).sum

/-- The indices `k` of the reads `delta[k]` of lines 76-100 of `model.cpp`, in program
order, for the formulation `inad_type` (`i`, and `j` in the cross-term formulation, run
over `0..n_s-1`; the index arithmetic is that of `unsigned int`). -/
def deltaIndices (inad_type n_s pf : Nat) : List Nat :=
  if inad_type = 0 then []
  else if inad_type = 1 then
    (List.range n_s).flatMap (fun i => [u32 (pf * i + 0), u32 (pf * i + 1)])
  else if inad_type = 2 then
    (List.range n_s).flatMap (fun i =>
      [u32 (pf * i + 0), u32 (pf * i + 1), u32 (pf * i + 2), u32 (pf * i + 3)])
  else if inad_type = 3 then
    (List.range n_s).flatMap (fun i => (List.range n_s).flatMap (fun j =>
      [u32 (pf * i + 2 * j + 0), u32 (pf * i + 2 * j + 1), u32 (pf * i + 2 * j + 2),
        u32 (pf * i + 2 * j + 3)]))
  else []

/-! ## Concrete integrators used for evaluation -/

/-- A driver that advances to the target in one explicit Euler step of the right-hand
side and reports the status of that evaluation. -/
def eulerDriver : Integrator gsl_odeiv2_system where
  alloc_y_new := fun sys _ _ _ _ => sys
  apply := fun sys t t1 y =>
    match sys.function t y (List.replicate sys.dimension 0) with
    | .ok (status, dydt) =>
      if status = GSL_SUCCESS then
        (GSL_SUCCESS, sys, t1, List.zipWith (fun a b => a + (t1 - t) * b) y dydt)
      else (status, sys, t, y)
    | .error _ => (GSL_FAILURE, sys, t, y)

/-- A driver whose every step reports `GSL_FAILURE` and leaves time and state untouched. -/
def failingDriver : Integrator Unit where
  alloc_y_new := fun _ _ _ _ _ => ()
  apply := fun d t _ y => (GSL_FAILURE, d, t, y)

/-- A driver that jumps to the target time and adds the elapsed time to every entry of
the state. -/
def driftDriver : Integrator Unit where
  alloc_y_new := fun _ _ _ _ _ => ()
  apply := fun d t t1 y => (GSL_SUCCESS, d, t1, y.map (fun v => v + (t1 - t)))

/-- The arguments a driver was allocated with: stepper, initial step, `epsabs`, `epsrel`. -/
structure DriverConfig where
  stepper : gsl_odeiv2_step_type
  hstart : ℚ
  epsabs : ℚ
  epsrel : ℚ

/-- A driver that keeps the arguments of its allocation as its state; its steps jump to
the target time and leave the state untouched. -/
def recordingDriver : Integrator DriverConfig where
  alloc_y_new := fun _ T hstart epsabs epsrel => ⟨T, hstart, epsabs, epsrel⟩
  apply := fun d _ t1 y => (GSL_SUCCESS, d, t1, y)

/-! ## Concrete inputs used for evaluation -/

/-- A state with 100 susceptible, 59 exposed and 79 infectious humans, one susceptible
vector and a cumulative incidence of 5. -/
def exY : List ℚ := [100, 59, 79, 0, 1, 0, 0, 5]

/-- Fourteen parameters of the LINEAR formulation. -/
def exParams : List ℚ := [1, 2, 0, 0, 0, 0, 0, 0, 0, 0, 0, 0, 0, 0]

/-- Seven species, two time points, LINEAR formulation, a parameter buffer of 14 zeros. -/
def exDynZero : dynamics_info := ⟨7, 2, 1, 2, List.replicate 14 0⟩

/-- Seven species, two time points, LINEAR formulation, 14 parameters. -/
def exDynLinear : dynamics_info := ⟨7, 2, 1, 2, [1, 2, 0, 0, 0, 0, 0, 0, 0, 0, 0, 0, 0, 0]⟩

/-- Seven species, two time points, cross-term formulation, 98 parameters, all zero
except `Deltas[14] = 1`. -/
def exDynCross : dynamics_info := ⟨7, 2, 3, 14, (List.replicate 98 0).set 14 1⟩

/-- Likelihood data: the times 7 and 14, the initial condition `exY`, the observed
cumulative cases 6 and 75, variance 2. -/
def exData : likelihoodRoutine_Data := ⟨[7, 14], exY, [6, 75], 2, exDynZero⟩

/-- The data `exData` with an initial cumulative incidence of `4e9`, above the bound `3e9`
tested in `zikaFunction`. -/
def exDataRunaway : likelihoodRoutine_Data :=
  ⟨[7, 14], [100, 59, 79, 0, 1, 0, 0, 4000000000], [6, 75], 2, exDynZero⟩

/-- QoI data: the times 7 and 14 and the initial condition `exY`. -/
def exDataQoi : qoiRoutine_Data := ⟨[7, 14], exY, exDynZero⟩

/-- The two rows that `eulerDriver` produces from `exY` for the times 7 and 14 with the
parameters `exParams`. -/
def exTrajectory : List ℚ :=
  [100, 59, 79, 0, 1, 0, 0, 5,
    800, -11, 79, 70, 1771599447 / 1771600000, 553 / 1771600000, 0, 75]

/-- Seven species, two time points, formulation NONE, a parameter buffer of 7 zeros. -/
def exDynNone : dynamics_info := ⟨7, 2, 0, 1, List.replicate 7 0⟩

/-- The state `exY` with one infectious vector. -/
def exYVector : List ℚ := [100, 59, 79, 0, 1, 0, 1, 5]

/-- Likelihood data for the cross-term formulation: four weekly time points, the initial
condition `exYVector`, four observed values, variance 2, 98 parameters, all zero. -/
def exDataCross : likelihoodRoutine_Data :=
  ⟨[7, 14, 21, 28], exYVector, [5, 75, 80, 90], 2, ⟨7, 4, 3, 14, List.replicate 98 0⟩⟩

/-! ## Loops, reads and writes -/

theorem u32_of_lt {n : Nat} (h : n < 2 ^ 32) : u32 n = n := Nat.mod_eq_of_lt h

theorem rd_of_lt {a : List ℚ} {i : Nat} (h : i < a.length) : rd a i = .ok (a.getD i 0) := by
  simp [rd, List.getD, List.getElem?_eq_getElem h]

theorem wr_of_lt {a : List ℚ} {i : Nat} (v : ℚ) (h : i < a.length) :
    wr a i v = .ok (a.set i v) := by
  simp [wr, h]

theorem getD_set_self {l : List ℚ} {k : Nat} (h : k < l.length) (v : ℚ) :
    (l.set k v).getD k 0 = v := by
  simp [List.getD, List.getElem?_set, h]

theorem getD_set_ne {l : List ℚ} {k j : Nat} (h : k ≠ j) (v : ℚ) :
    (l.set k v).getD j 0 = l.getD j 0 := by
  simp [List.getD, List.getElem?_set_ne h]

theorem getElem?_eq_some_getD {l : List ℚ} {k : Nat} (h : k < l.length) :
    l[k]? = some (l.getD k 0) := by
  simp [List.getD, List.getElem?_eq_getElem h]

/-- Total correctness of a `for` loop from an invariant indexed by the loop counter. -/
theorem forLoop_inv {α : Type} (body : Nat → α → Res α) (P : Nat → α → Prop) :
    ∀ (n i : Nat) (s : α), P i s →
      (∀ k s, i ≤ k → k < i + n → P k s → ∃ s1, body k s = .ok s1 ∧ P (k + 1) s1) →
      ∃ s1, forLoop body n i s = .ok s1 ∧ P (i + n) s1 := by
  intro n
  induction n with
  | zero => intro i s h _; exact ⟨s, rfl, h⟩
  | succ n ih =>
    intro i s h hb
    obtain ⟨s1, h1, hP1⟩ := hb i s (le_refl i) (by omega) h
    obtain ⟨s2, h2, hP2⟩ := ih (i + 1) s1 hP1
      (fun k s hk hk2 hP => hb k s (by omega) (by omega) hP)
    refine ⟨s2, ?_, ?_⟩
    · simp only [forLoop, h1, h2]
    · have : i + (n + 1) = i + 1 + n := by omega
      rw [this]; exact hP2

/-- Partial correctness of a `for` loop: an invariant kept by every step that returns. -/
theorem forLoop_inv_of_ok {α : Type} (body : Nat → α → Res α) (P : Nat → α → Prop) :
    ∀ (n i : Nat) (s s2 : α), P i s →
      (∀ k s s1, i ≤ k → k < i + n → P k s → body k s = .ok s1 → P (k + 1) s1) →
      forLoop body n i s = .ok s2 → P (i + n) s2 := by
  intro n
  induction n with
  | zero =>
    intro i s s2 h _ hr
    simp only [forLoop, Except.ok.injEq] at hr
    subst hr; exact h
  | succ n ih =>
    intro i s s2 h hb hr
    simp only [forLoop] at hr
    cases hbody : body i s with
    | error e => rw [hbody] at hr; cases hr
    | ok s1 =>
      rw [hbody] at hr
      have hP1 := hb i s s1 (le_refl i) (by omega) h hbody
      have := ih (i + 1) s1 s2 hP1 (fun k s s1 hk hk2 hP => hb k s s1 (by omega) (by omega) hP) hr
      have e : i + (n + 1) = i + 1 + n := by omega
      rw [e]; exact this

/-- A fault of a `for` loop is a fault of one of its steps. -/
theorem forLoop_error {α : Type} (body : Nat → α → Res α) (Q : Fault → Prop)
    (hb : ∀ k s e, body k s = .error e → Q e) :
    ∀ (n i : Nat) (s : α) (e : Fault), forLoop body n i s = .error e → Q e := by
  intro n
  induction n with
  | zero => intro i s e hr; simp [forLoop] at hr
  | succ n ih =>
    intro i s e hr
    simp only [forLoop] at hr
    cases hbody : body i s with
    | error e1 => rw [hbody] at hr; cases hr; exact hb i s e hbody
    | ok s1 => rw [hbody] at hr; exact ih (i + 1) s1 e hr


/-! ## The right-hand side `zikaFunction` -/

/-- The clamping loop returns the clamped populations, one per entry read. -/
theorem clampPops_eq (n_s : Nat) (Y : List ℚ) (hn : n_s + 1 < 2 ^ 32)
    (hY : n_s + 1 ≤ Y.length) :
    clampPops n_s Y = .ok ((List.range (n_s + 1)).map (pop Y)) := by
  have hu : u32 (n_s + 1) = n_s + 1 := u32_of_lt hn
  obtain ⟨pops, hp, hlen, hval⟩ := forLoop_inv
    (fun i pops => do
      let pops ← wr pops i (← rd Y i)
      if (← rd pops i) ≤ 0 then wr pops i 0 else pure pops)
    (fun k (pops : List ℚ) => pops.length = n_s + 1 ∧ ∀ j, j < k → pops[j]? = some (pop Y j))
    (n_s + 1) 0 (List.replicate (n_s + 1) 0)
    ⟨by simp, fun j hj => absurd hj (Nat.not_lt_zero j)⟩
    (by
      intro k pops _ hk ⟨hl, hv⟩
      have hkY : k < Y.length := by omega
      have hkp : k < pops.length := by omega
      have hks : k < (pops.set k (Y.getD k 0)).length := by simpa using hkp
      refine ⟨pops.set k (pop Y k), ?_, by simpa using hl, ?_⟩
      · simp only [rd_of_lt hkY, wr_of_lt _ hkp, rd_of_lt hks, bind, Except.bind, pure,
          Except.pure, wr_of_lt _ hks]
        rw [getD_set_self hkp]
        by_cases hle : Y.getD k 0 ≤ 0
        · have : pop Y k = 0 := max_eq_right hle
          rw [if_pos hle, List.set_set, this]
        · have : pop Y k = Y.getD k 0 := max_eq_left (le_of_not_le hle)
          rw [if_neg hle, this]
      · intro j hj
        by_cases hjk : j = k
        · subst hjk; simp [List.getElem?_set, hkp]
        · rw [List.getElem?_set_ne (Ne.symm hjk)]; exact hv j (by omega))
  simp only [clampPops, hu, hp]
  congr 1
  apply List.ext_getElem?
  intro j
  by_cases hj : j < n_s + 1
  · rw [hval j (by omega)]; simp [List.getElem?_map, List.getElem?_range hj]
  · rw [List.getElem?_eq_none (by omega), List.getElem?_eq_none (by simp; omega)]

theorem range_eight : List.range 8 = [0, 1, 2, 3, 4, 5, 6, 7] := by decide

theorem rd_cons_zero (a : ℚ) (l : List ℚ) : rd (a :: l) 0 = .ok a := by simp [rd]

theorem rd_cons_succ (a : ℚ) (l : List ℚ) (i : Nat) : rd (a :: l) (i + 1) = rd l i := by
  simp [rd]

theorem wr_cons_zero (a v : ℚ) (l : List ℚ) : wr (a :: l) 0 v = .ok (v :: l) := by simp [wr]

theorem wr_cons_succ (a v : ℚ) (l : List ℚ) (i : Nat) :
    wr (a :: l) (i + 1) v = (wr l i v).map (fun r => a :: r) := by
  by_cases h : i < l.length <;> simp [wr, h, Except.map]

theorem ok_bind {α β : Type} (a : α) (f : α → Res β) : (Except.ok a >>= f) = f a := rfl

theorem ok_map {α β : Type} (a : α) (f : α → β) :
    Except.map f (Except.ok a : Res α) = .ok (f a) := rfl

theorem exists_of_length_eight (l : List ℚ) (h : l.length = 8) :
    ∃ a0 a1 a2 a3 a4 a5 a6 a7 : ℚ, l = [a0, a1, a2, a3, a4, a5, a6, a7] := by
  match l, h with
  | [a0, a1, a2, a3, a4, a5, a6, a7], _ => exact ⟨a0, a1, a2, a3, a4, a5, a6, a7, rfl⟩

/-- On clamped populations the structural block writes the eight structural derivatives. -/
theorem seirSei_eq (Y dYdt : List ℚ) (hd : dYdt.length = 8) :
    seirSei ((List.range 8).map (pop Y)) dYdt = .ok ((List.range 8).map (structural (pop Y))) := by
  obtain ⟨a0, a1, a2, a3, a4, a5, a6, a7, rfl⟩ := exists_of_length_eight dYdt hd
  rw [range_eight]
  simp only [seirSei, List.map, rd_cons_zero, rd_cons_succ, ok_bind, wr_cons_zero, wr_cons_succ,
    ok_map, structural]

theorem inadBody0_eq (i : Nat) (d : List ℚ) (hi : i < d.length) :
    inadBody0 i d = .ok (d.set i (d.getD i 0 + 0)) := by
  simp only [inadBody0, rd_of_lt hi, wr_of_lt _ hi, ok_bind]

theorem inadBody1_eq (pf : Nat) (delta : Nat → ℚ) (pops : List ℚ) (i : Nat) (d : List ℚ)
    (hi : i < d.length) (hp : i < pops.length) :
    inadBody1 pf delta pops i d = .ok (d.set i (d.getD i 0 +
      (delta (u32 (pf * i + 0)) * pops.getD i 0 + delta (u32 (pf * i + 1)) * |d.getD i 0|))) := by
  simp only [inadBody1, rd_of_lt hi, rd_of_lt hp, wr_of_lt _ hi, ok_bind]

theorem inadBody2_eq (pf : Nat) (delta : Nat → ℚ) (pops : List ℚ) (i : Nat) (d : List ℚ)
    (hi : i < d.length) (hp : i < pops.length) :
    inadBody2 pf delta pops i d = .ok (d.set i (d.getD i 0 +
      (delta (u32 (pf * i + 0)) * pops.getD i 0 + delta (u32 (pf * i + 1)) * |d.getD i 0| +
        delta (u32 (pf * i + 2)) * pops.getD i 0 ^ 2 +
        delta (u32 (pf * i + 3)) * d.getD i 0 ^ 2))) := by
  simp only [inadBody2, rd_of_lt hi, rd_of_lt hp, wr_of_lt _ hi, ok_bind]

theorem inadBody3_eq (pf : Nat) (delta : Nat → ℚ) (pops : List ℚ) (i j : Nat) (d : List ℚ)
    (hi : i < d.length) (hj : j < d.length) (hp : j < pops.length) :
    inadBody3 pf delta pops i j d = .ok (d.set i (crossFirst pf delta pops i j d +
      (delta (u32 (pf * i + 2 * j + 2)) * pops.getD j 0 ^ 2 +
        delta (u32 (pf * i + 2 * j + 3)) *
          (d.set i (crossFirst pf delta pops i j d)).getD j 0 ^ 2))) := by
  have hi1 : i < (d.set i (crossFirst pf delta pops i j d)).length := by simpa using hi
  have hj1 : j < (d.set i (crossFirst pf delta pops i j d)).length := by simpa using hj
  simp only [inadBody3, rd_of_lt hi, rd_of_lt hj, rd_of_lt hp, wr_of_lt _ hi, ok_bind]
  rw [show d.getD i 0 + (delta (u32 (pf * i + 2 * j + 0)) * pops.getD j 0 +
    delta (u32 (pf * i + 2 * j + 1)) * |d.getD j 0|) = crossFirst pf delta pops i j d from rfl]
  simp only [rd_of_lt hi1, rd_of_lt hj1, wr_of_lt _ hi1, ok_bind, getD_set_self hi,
    List.set_set]

/-- A loop whose steps return and each change at most the entry named by `idx` returns,
keeps the length and keeps every entry that no step names. -/
theorem forLoop_frame (body : Nat → List ℚ → Res (List ℚ)) (idx : Nat → Nat) (m n : Nat)
    (d : List ℚ) (hd : d.length = m)
    (hb : ∀ k (s : List ℚ), k < n → s.length = m →
      ∃ s1, body k s = .ok s1 ∧ s1.length = m ∧ ∀ j, j ≠ idx k → s1[j]? = s[j]?) :
    ∃ d1, forLoop body n 0 d = .ok d1 ∧ d1.length = m ∧
      ∀ j, (∀ k, k < n → j ≠ idx k) → d1[j]? = d[j]? := by
  obtain ⟨d1, h1, hl, hv⟩ := forLoop_inv body
    (fun k (s : List ℚ) => s.length = m ∧ ∀ j, (∀ k, k < n → j ≠ idx k) → s[j]? = d[j]?)
    n 0 d ⟨hd, fun _ _ => rfl⟩
    (by
      intro k s _ hk ⟨hl, hv⟩
      obtain ⟨s1, hs1, hl1, hv1⟩ := hb k s (by omega) hl
      exact ⟨s1, hs1, hl1, fun j hj => by rw [hv1 j (hj k (by omega)), hv j hj]⟩)
  exact ⟨d1, h1, hl, hv⟩

/-- Whatever the formulation, the inadequacy block returns, keeps the length of `dYdt` and
leaves every entry from index `n_s` on as it was. -/
theorem inadequacy_frame (inad_type n_s pf : Nat) (delta : Nat → ℚ) (pops d : List ℚ)
    (hp : n_s ≤ pops.length) (hd : n_s ≤ d.length) :
    ∃ d1, inadequacy inad_type n_s pf delta pops d = .ok d1 ∧ d1.length = d.length ∧
      ∀ j, n_s ≤ j → d1[j]? = d[j]? := by
  have key : ∀ body : Nat → List ℚ → Res (List ℚ),
      (∀ k (s : List ℚ), k < n_s → s.length = d.length →
        ∃ s1, body k s = .ok s1 ∧ s1.length = d.length ∧ ∀ j, j ≠ k → s1[j]? = s[j]?) →
      ∃ d1, forLoop body n_s 0 d = .ok d1 ∧ d1.length = d.length ∧
        ∀ j, n_s ≤ j → d1[j]? = d[j]? := by
    intro body hb
    obtain ⟨d1, h1, hl, hv⟩ := forLoop_frame body id d.length n_s d rfl hb
    exact ⟨d1, h1, hl, fun j hj => hv j (fun k hk => by simp only [id]; omega)⟩
  have hset : ∀ (s : List ℚ) (k : Nat) (v : ℚ), s.length = d.length →
      (s.set k v).length = d.length ∧ ∀ j, j ≠ k → (s.set k v)[j]? = s[j]? :=
    fun s k v hs => ⟨by simpa using hs, fun j hj => List.getElem?_set_ne (Ne.symm hj)⟩
  unfold inadequacy
  split_ifs
  · exact key _ (fun k s hk hs => ⟨_, inadBody0_eq k s (by omega), hset s k _ hs⟩)
  · exact key _ (fun k s hk hs =>
      ⟨_, inadBody1_eq pf delta pops k s (by omega) (by omega), hset s k _ hs⟩)
  · exact key _ (fun k s hk hs =>
      ⟨_, inadBody2_eq pf delta pops k s (by omega) (by omega), hset s k _ hs⟩)
  · refine key _ (fun k s hk hs => ?_)
    obtain ⟨s1, h1, hl, hv⟩ := forLoop_frame (inadBody3 pf delta pops k) (fun _ => k)
      d.length n_s s hs
      (fun j s2 hj hs2 =>
        ⟨_, inadBody3_eq pf delta pops k j s2 (by omega) (by omega) (by omega), hset s2 k _ hs2⟩)
    exact ⟨s1, h1, hl, fun j hj => hv j (fun _ _ => hj)⟩
  · exact ⟨d, rfl, rfl, fun _ _ => rfl⟩

/-- For seven species and eight-entry arrays the right-hand side is the inadequacy block
applied to the structural derivatives of the clamped state; the status is `GSL_SUCCESS`. -/
theorem zikaFunction_eq (dyn : dynamics_info) (junk : Nat → ℚ) (t : ℚ) (Y dYdt : List ℚ)
    (hN : dyn.N_s = 7) (hY : Y.length = 8) (hd : dYdt.length = 8) :
    zikaFunction dyn junk t Y dYdt =
      (inadequacy dyn.Inad_type 7 dyn.Params_factor (rdDelta dyn.Deltas junk)
        ((List.range 8).map (pop Y)) ((List.range 8).map (structural (pop Y)))).map
        (fun d => (GSL_SUCCESS, d)) := by
  have hc : clampPops 7 Y = .ok ((List.range 8).map (pop Y)) :=
    clampPops_eq 7 Y (by decide) (by omega)
  have h7 : rd Y 7 = .ok (Y.getD 7 0) := rd_of_lt (by omega)
  simp only [zikaFunction, hN, hc, seirSei_eq Y dYdt hd, h7, ok_bind, ite_self]
  cases inadequacy dyn.Inad_type 7 dyn.Params_factor (rdDelta dyn.Deltas junk)
    ((List.range 8).map (pop Y)) ((List.range 8).map (structural (pop Y))) <;> rfl

/-- C10: for seven species, every formulation, every state and every discrepancy
vector (whatever a read past its end returns), `zikaFunction` returns with
`dYdt[7] = ah * max(Y[1], 0)`, `ah = 1/5.9`: the derivative of the cumulative incidence is
the structural incidence flow and no discrepancy parameter enters it. -/
theorem zikaFunction_incidence_unperturbed (dyn : dynamics_info) (junk : Nat → ℚ) (t : ℚ)
    (Y dYdt : List ℚ) (hN : dyn.N_s = 7) (hY : Y.length = 8) (hd : dYdt.length = 8) :
    ∃ dY, zikaFunction dyn junk t Y dYdt = .ok (GSL_SUCCESS, dY) ∧ dY.length = 8 ∧
      dY[7]? = some (1 / 5.9 * max (Y.getD 1 0) 0) := by
  obtain ⟨d1, h1, hl, hv⟩ := inadequacy_frame dyn.Inad_type 7 dyn.Params_factor
    (rdDelta dyn.Deltas junk) ((List.range 8).map (pop Y))
    ((List.range 8).map (structural (pop Y))) (by simp) (by simp)
  refine ⟨d1, ?_, by simpa using hl, ?_⟩
  · rw [zikaFunction_eq dyn junk t Y dYdt hN hY hd, h1]; rfl
  · rw [hv 7 (le_refl 7), range_eight]
    simp only [List.map, List.getElem?_cons_succ, List.getElem?_cons_zero, structural, pop]

theorem rdDelta_of_lt {delta : List ℚ} {k : Nat} (junk : Nat → ℚ) (h : k < delta.length) :
    rdDelta delta junk k = delta.getD k 0 := by
  simp [rdDelta, List.getD, List.getElem?_eq_getElem h]

theorem getD_map_range (f : Nat → ℚ) {n i : Nat} (h : i < n) :
    ((List.range n).map f).getD i 0 = f i := by
  simp [List.getD, List.getElem?_map, List.getElem?_range h]

/-- A loop whose step `k` replaces entry `k` by a function of its old value. -/
theorem forLoop_pointwise (body : Nat → List ℚ → Res (List ℚ)) (g : Nat → ℚ → ℚ) (m n : Nat)
    (d : List ℚ) (hd : d.length = m) (hn : n ≤ m)
    (hb : ∀ k (s : List ℚ), k < n → s.length = m →
      body k s = .ok (s.set k (g k (s.getD k 0)))) :
    ∃ d1, forLoop body n 0 d = .ok d1 ∧ d1.length = m ∧
      (∀ j, j < n → d1[j]? = some (g j (d.getD j 0))) ∧ ∀ j, n ≤ j → d1[j]? = d[j]? := by
  obtain ⟨d1, h1, hl, hlo, hhi⟩ := forLoop_inv body
    (fun k (s : List ℚ) => s.length = m ∧ (∀ j, j < k → s[j]? = some (g j (d.getD j 0))) ∧
      ∀ j, k ≤ j → s[j]? = d[j]?)
    n 0 d ⟨hd, fun j hj => absurd hj (Nat.not_lt_zero j), fun _ _ => rfl⟩
    (by
      intro k s _ hk ⟨hl, hlo, hhi⟩
      have hkn : k < n := by omega
      have hks : k < s.length := by omega
      refine ⟨_, hb k s hkn hl, by simpa using hl, ?_, ?_⟩
      · intro j hj
        by_cases hjk : j = k
        · subst hjk
          have : s.getD j 0 = d.getD j 0 := by
            simp only [List.getD_eq_getElem?_getD, hhi j (le_refl j)]
          rw [this]; simp [List.getElem?_set, hks]
        · rw [List.getElem?_set_ne (Ne.symm hjk)]; exact hlo j (by omega)
      · intro j hj
        rw [List.getElem?_set_ne (by omega)]; exact hhi j (by omega))
  exact ⟨d1, h1, hl, by simpa using hlo, by simpa using hhi⟩

/-- C8: with the LINEAR formulation (`Inad_type = 1`, `Params_factor = 2`, `N_s = 7`), for
every state `Y` and every parameter vector of length 14, `zikaFunction` returns
`dYdt[i] = f_i + δ[2i] * pop[i] + δ[2i+1] * |f_i|` for each compartment `i < 7`, where
`pop[i] = max(Y[i], 0)` and `f_i` is the structural derivative at `pop`. -/
theorem zikaFunction_linear (dyn : dynamics_info) (junk : Nat → ℚ) (t : ℚ) (Y dYdt : List ℚ)
    (hN : dyn.N_s = 7) (hI : dyn.Inad_type = 1) (hP : dyn.Params_factor = 2)
    (hD : dyn.Deltas.length = 14) (hY : Y.length = 8) (hd : dYdt.length = 8) :
    ∃ dY, zikaFunction dyn junk t Y dYdt = .ok (GSL_SUCCESS, dY) ∧
      ∀ i, i < 7 → dY[i]? = some (structural (pop Y) i + dyn.Deltas.getD (2 * i) 0 * pop Y i +
        dyn.Deltas.getD (2 * i + 1) 0 * |structural (pop Y) i|) := by
  obtain ⟨d1, h1, _, hlo, _⟩ := forLoop_pointwise
    (inadBody1 2 (rdDelta dyn.Deltas junk) ((List.range 8).map (pop Y)))
    (fun k v => v + (rdDelta dyn.Deltas junk (u32 (2 * k + 0)) *
      ((List.range 8).map (pop Y)).getD k 0 + rdDelta dyn.Deltas junk (u32 (2 * k + 1)) * |v|))
    8 7 ((List.range 8).map (structural (pop Y))) (by simp) (by decide)
    (fun k s hk hs => inadBody1_eq 2 _ _ k s (by omega) (by simp; omega))
  refine ⟨d1, ?_, ?_⟩
  · rw [zikaFunction_eq dyn junk t Y dYdt hN hY hd, hI, hP]
    simp only [inadequacy, if_pos, if_neg, one_ne_zero, h1]
    rfl
  · intro i hi
    have e0 : u32 (2 * i + 0) = 2 * i := u32_of_lt (by omega)
    have e1 : u32 (2 * i + 1) = 2 * i + 1 := u32_of_lt (by omega)
    rw [hlo i hi]
    simp only [e0, e1, rdDelta_of_lt junk (show 2 * i < dyn.Deltas.length by omega),
      rdDelta_of_lt junk (show 2 * i + 1 < dyn.Deltas.length by omega),
      getD_map_range _ (show i < 8 by omega)]
    congr 1
    ring

/-- The inner loop of the cross-term formulation for compartment `i`, started on the array
`D`: only `dYdt[i]` changes, by the sum of `crossTerms` at the values read. -/
theorem crossInner (pf : Nat) (delta : Nat → ℚ) (pops D : List ℚ) (i n m : Nat)
    (hD : D.length = m) (hp : n ≤ pops.length) (hn : n ≤ m) (hi : i < m) :
    ∃ s, forLoop (inadBody3 pf delta pops i) n 0 D = .ok s ∧ s.length = m ∧
      (∀ k, k ≠ i → s[k]? = D[k]?) ∧
      s.getD i 0 = D.getD i 0 + ∑ j ∈ Finset.range n,
        crossTerms pf delta (fun l => pops.getD l 0) i j
          (crossRead1 pf delta (fun l => pops.getD l 0) (fun l => D.getD l 0) i j)
          (crossRead2 pf delta (fun l => pops.getD l 0) (fun l => D.getD l 0) i j) := by
  obtain ⟨s, h1, hl, hk, hv⟩ := forLoop_inv (inadBody3 pf delta pops i)
    (fun k (s : List ℚ) => s.length = m ∧ (∀ k, k ≠ i → s[k]? = D[k]?) ∧
      s.getD i 0 = D.getD i 0 + ∑ j ∈ Finset.range k,
        crossTerms pf delta (fun l => pops.getD l 0) i j
          (crossRead1 pf delta (fun l => pops.getD l 0) (fun l => D.getD l 0) i j)
          (crossRead2 pf delta (fun l => pops.getD l 0) (fun l => D.getD l 0) i j))
    n 0 D ⟨hD, fun _ _ => rfl, by simp⟩
    (by
      intro k s _ hk ⟨hl, hfr, hacc⟩
      have his : i < s.length := by omega
      refine ⟨_, inadBody3_eq pf delta pops i k s his (by omega) (by omega),
        by simpa using hl, ?_, ?_⟩
      · intro j hj
        rw [List.getElem?_set_ne (Ne.symm hj)]; exact hfr j hj
      · rw [getD_set_self his, Finset.sum_range_succ, ← add_assoc (D.getD i 0), ← hacc]
        by_cases hki : k = i
        · subst hki
          have r1 : crossRead1 pf delta (fun l => pops.getD l 0) (fun l => D.getD l 0) k k =
              s.getD k 0 := by
            rw [hacc]
            simp only [crossRead1, if_pos]
            congr 1
            apply Finset.sum_congr rfl
            intro l hl
            have hlk : l ≠ k := by
              have := Finset.mem_range.mp hl
              omega
            simp only [crossRead1, crossRead2, if_neg hlk]
          simp only [crossRead2, if_pos, r1, getD_set_self his, crossFirst, crossTerms]
          ring
        · have e1 : s.getD k 0 = D.getD k 0 := by
            simp only [List.getD_eq_getElem?_getD, hfr k hki]
          simp only [crossRead1, crossRead2, if_neg hki, getD_set_ne (Ne.symm hki), crossFirst,
            crossTerms, e1]
          ring)
  exact ⟨s, h1, hl, hk, by simpa using hv⟩

theorem crossRead1_congr (pf : Nat) (delta p D D1 : Nat → ℚ) (n i j : Nat)
    (h : ∀ l, l < n → D l = D1 l) (hi : i < n) (hj : j < n) :
    crossRead1 pf delta p D i j = crossRead1 pf delta p D1 i j := by
  unfold crossRead1
  split_ifs
  · rw [h i hi]
    congr 1
    apply Finset.sum_congr rfl
    intro l hl
    have := Finset.mem_range.mp hl
    rw [h l (by omega)]
  · exact h j hj

theorem crossRead2_congr (pf : Nat) (delta p D D1 : Nat → ℚ) (n i j : Nat)
    (h : ∀ l, l < n → D l = D1 l) (hi : i < n) (hj : j < n) :
    crossRead2 pf delta p D i j = crossRead2 pf delta p D1 i j := by
  unfold crossRead2
  rw [crossRead1_congr pf delta p D D1 n i i h hi hi]
  split_ifs
  · rfl
  · exact h j hj

/-- The nested loops of the cross-term formulation started on the array `S`: entry `a`
of the result is `S[a]` plus the `crossTerms` at the values read from the array that the
update of compartment `a` starts on, the entries below `a` of the result and the entries
from `a` on of `S`. -/
theorem crossOuter (pf : Nat) (delta : Nat → ℚ) (pops S : List ℚ) (n m : Nat)
    (hS : S.length = m) (hp : n ≤ pops.length) (hn : n ≤ m) :
    ∃ s, forLoop (fun i d => forLoop (inadBody3 pf delta pops i) n 0 d) n 0 S = .ok s ∧
      s.length = m ∧ (∀ k, n ≤ k → s[k]? = S[k]?) ∧
      ∀ a, a < n → s.getD a 0 = S.getD a 0 + ∑ j ∈ Finset.range n,
        crossTerms pf delta (fun l => pops.getD l 0) a j
          (crossRead1 pf delta (fun l => pops.getD l 0)
            (fun l => if l < a then s.getD l 0 else S.getD l 0) a j)
          (crossRead2 pf delta (fun l => pops.getD l 0)
            (fun l => if l < a then s.getD l 0 else S.getD l 0) a j) := by
  obtain ⟨s, h1, hl, hk, hv⟩ := forLoop_inv
    (fun i d => forLoop (inadBody3 pf delta pops i) n 0 d)
    (fun i (s : List ℚ) => s.length = m ∧ (∀ k, i ≤ k → s[k]? = S[k]?) ∧
      ∀ a, a < i → s.getD a 0 = S.getD a 0 + ∑ j ∈ Finset.range n,
        crossTerms pf delta (fun l => pops.getD l 0) a j
          (crossRead1 pf delta (fun l => pops.getD l 0)
            (fun l => if l < a then s.getD l 0 else S.getD l 0) a j)
          (crossRead2 pf delta (fun l => pops.getD l 0)
            (fun l => if l < a then s.getD l 0 else S.getD l 0) a j))
    n 0 S ⟨hS, fun _ _ => rfl, fun a ha => absurd ha (Nat.not_lt_zero a)⟩
    (by
      intro i s _ hi ⟨hl, hhi, hrow⟩
      have hin : i < n := by omega
      obtain ⟨s1, h1, hl1, hfr, hacc⟩ := crossInner pf delta pops s i n m hl hp hn (by omega)
      have hget : ∀ l, l ≠ i → s1.getD l 0 = s.getD l 0 := fun l hli => by
        simp only [List.getD_eq_getElem?_getD, hfr l hli]
      have hSget : ∀ l, i ≤ l → s.getD l 0 = S.getD l 0 := fun l hli => by
        simp only [List.getD_eq_getElem?_getD, hhi l hli]
      refine ⟨s1, h1, hl1, ?_, ?_⟩
      · intro k hk
        rw [hfr k (by omega)]; exact hhi k (by omega)
      · intro a ha
        have hagree : ∀ b, b ≤ i → ∀ l, l < n →
            (fun l => if l < b then s1.getD l 0 else S.getD l 0) l =
              (fun l => if l < b then s.getD l 0 else S.getD l 0) l := by
          intro b hb l _
          by_cases hlb : l < b
          · simp only [if_pos hlb]; exact hget l (by omega)
          · simp only [if_neg hlb]
        by_cases hai : a = i
        · subst hai
          rw [hacc, hSget a (le_refl a)]
          congr 1
          apply Finset.sum_congr rfl
          intro j hj
          have hjn : j < n := Finset.mem_range.mp hj
          have hD : ∀ l, l < n → (fun l => s.getD l 0) l =
              (fun l => if l < a then s1.getD l 0 else S.getD l 0) l := by
            intro l _
            by_cases hla : l < a
            · simp only [if_pos hla]; exact (hget l (by omega)).symm
            · simp only [if_neg hla]; exact hSget l (by omega)
          rw [crossRead1_congr pf delta _ _ _ n a j hD hin hjn,
            crossRead2_congr pf delta _ _ _ n a j hD hin hjn]
        · have hlt : a < i := by omega
          rw [hget a hai, hrow a hlt]
          congr 1
          apply Finset.sum_congr rfl
          intro j hj
          have hjn : j < n := Finset.mem_range.mp hj
          rw [crossRead1_congr pf delta _ _ _ n a j (hagree a (by omega)) (by omega) hjn,
            crossRead2_congr pf delta _ _ _ n a j (hagree a (by omega)) (by omega) hjn])
  exact ⟨s, h1, hl, by simpa using hk, by simpa using hv⟩

theorem crossTerms_fourteen (delta p : Nat → ℚ) (i j : Nat) (x y : ℚ) (hi : i < 7)
    (hj : j < 7) :
    crossTerms 14 delta p i j x y =
      delta (14 * i + 2 * j) * p j + delta (14 * i + 2 * j + 1) * |x| +
        delta (14 * i + 2 * j + 2) * p j ^ 2 + delta (14 * i + 2 * j + 3) * y ^ 2 := by
  have e0 : u32 (14 * i + 2 * j + 0) = 14 * i + 2 * j := u32_of_lt (by omega)
  have e1 : u32 (14 * i + 2 * j + 1) = 14 * i + 2 * j + 1 := u32_of_lt (by omega)
  have e2 : u32 (14 * i + 2 * j + 2) = 14 * i + 2 * j + 2 := u32_of_lt (by omega)
  have e3 : u32 (14 * i + 2 * j + 3) = 14 * i + 2 * j + 3 := u32_of_lt (by omega)
  simp only [crossTerms, e0, e1, e2, e3]

theorem inadequacy_three (n_s pf : Nat) (delta : Nat → ℚ) (pops d : List ℚ) :
    inadequacy 3 n_s pf delta pops d =
      forLoop (fun i dYdt => forLoop (inadBody3 pf delta pops i) n_s 0 dYdt) n_s 0 d := by
  unfold inadequacy
  rw [if_neg (by decide), if_neg (by decide), if_neg (by decide), if_pos rfl]

/-- The cross-term formulation as coded (`Inad_type = 3`, `N_s = 7`,
`Params_factor = 14`): `zikaFunction` returns, for each compartment `i < 7`, the
structural derivative plus the sum over `j < 7` of
`δ[14i+2j]*pop[j] + δ[14i+2j+1]*|r j| + δ[14i+2j+2]*pop[j]^2 + δ[14i+2j+3]*(r' j)^2`:
the parameter index depends on `i`, and `r j`, `r' j` are the contents of `dYdt[j]` when
the two statements read it, namely the returned (already perturbed) derivative for `j < i`,
the structural derivative for `j > i`, and the running value of `dYdt[i]` for `j = i`.
`δ[k]` is `rdDelta dyn.Deltas junk k`. -/
theorem zikaFunction_cross_term (dyn : dynamics_info) (junk : Nat → ℚ) (t : ℚ)
    (Y dYdt : List ℚ) (hN : dyn.N_s = 7) (hI : dyn.Inad_type = 3)
    (hP : dyn.Params_factor = 14) (hY : Y.length = 8) (hd : dYdt.length = 8) :
    ∃ dY, zikaFunction dyn junk t Y dYdt = .ok (GSL_SUCCESS, dY) ∧
      ∀ i, i < 7 → ∃ r r1 : Nat → ℚ,
        dY[i]? = some (structural (pop Y) i + ∑ j ∈ Finset.range 7,
          (rdDelta dyn.Deltas junk (14 * i + 2 * j) * pop Y j +
            rdDelta dyn.Deltas junk (14 * i + 2 * j + 1) * |r j| +
            rdDelta dyn.Deltas junk (14 * i + 2 * j + 2) * pop Y j ^ 2 +
            rdDelta dyn.Deltas junk (14 * i + 2 * j + 3) * r1 j ^ 2)) ∧
        (∀ j, j < i → dY[j]? = some (r j) ∧ r1 j = r j) ∧
        (∀ j, i < j → j < 7 → r j = structural (pop Y) j ∧ r1 j = r j) ∧
        r i = structural (pop Y) i + ∑ j ∈ Finset.range i,
          (rdDelta dyn.Deltas junk (14 * i + 2 * j) * pop Y j +
            rdDelta dyn.Deltas junk (14 * i + 2 * j + 1) * |r j| +
            rdDelta dyn.Deltas junk (14 * i + 2 * j + 2) * pop Y j ^ 2 +
            rdDelta dyn.Deltas junk (14 * i + 2 * j + 3) * r1 j ^ 2) ∧
        r1 i = r i + (rdDelta dyn.Deltas junk (14 * i + 2 * i) * pop Y i +
          rdDelta dyn.Deltas junk (14 * i + 2 * i + 1) * |r i|) := by
  obtain ⟨s, h1, hl, _, hrow⟩ := crossOuter 14 (rdDelta dyn.Deltas junk)
    ((List.range 8).map (pop Y)) ((List.range 8).map (structural (pop Y))) 7 8
    (by simp) (by simp) (by decide)
  have hin : inadequacy 3 7 14 (rdDelta dyn.Deltas junk) ((List.range 8).map (pop Y))
      ((List.range 8).map (structural (pop Y))) = .ok s := by
    rw [inadequacy_three]; exact h1
  have hp : ∀ l, l < 8 → ((List.range 8).map (pop Y)).getD l 0 = pop Y l :=
    fun l hl => getD_map_range _ hl
  have hS : ∀ l, l < 8 → ((List.range 8).map (structural (pop Y))).getD l 0 =
      structural (pop Y) l := fun l hl => getD_map_range _ hl
  refine ⟨s, ?_, ?_⟩
  · rw [zikaFunction_eq dyn junk t Y dYdt hN hY hd, hI, hP, hin]; rfl
  · intro i hi
    have hsum : ∀ (m : Nat) (x y : Nat → ℚ), m ≤ 7 →
        ∑ j ∈ Finset.range m, crossTerms 14 (rdDelta dyn.Deltas junk)
          (fun l => ((List.range 8).map (pop Y)).getD l 0) i j (x j) (y j) =
        ∑ j ∈ Finset.range m, (rdDelta dyn.Deltas junk (14 * i + 2 * j) * pop Y j +
          rdDelta dyn.Deltas junk (14 * i + 2 * j + 1) * |x j| +
          rdDelta dyn.Deltas junk (14 * i + 2 * j + 2) * pop Y j ^ 2 +
          rdDelta dyn.Deltas junk (14 * i + 2 * j + 3) * y j ^ 2) := by
      intro m x y hm
      apply Finset.sum_congr rfl
      intro j hj
      have hj7 : j < 7 := by
        have := Finset.mem_range.mp hj
        omega
      rw [crossTerms_fourteen _ _ i j _ _ hi hj7, hp j (by omega)]
    refine ⟨crossRead1 14 (rdDelta dyn.Deltas junk)
        (fun l => ((List.range 8).map (pop Y)).getD l 0)
        (fun l => if l < i then s.getD l 0
          else ((List.range 8).map (structural (pop Y))).getD l 0) i,
      crossRead2 14 (rdDelta dyn.Deltas junk)
        (fun l => ((List.range 8).map (pop Y)).getD l 0)
        (fun l => if l < i then s.getD l 0
          else ((List.range 8).map (structural (pop Y))).getD l 0) i, ?_, ?_, ?_, ?_, ?_⟩
    · rw [getElem?_eq_some_getD (by omega), hrow i hi, hS i (by omega), hsum 7 _ _ (le_refl 7)]
    · intro j hj
      have hne : j ≠ i := by omega
      simp only [crossRead1, crossRead2, if_neg hne, if_pos hj]
      exact ⟨getElem?_eq_some_getD (by omega), trivial⟩
    · intro j hj hj7
      have hne : j ≠ i := by omega
      have hnl : ¬ j < i := by omega
      simp only [crossRead1, crossRead2, if_neg hne, if_neg hnl]
      exact ⟨hS j (by omega), trivial⟩
    · have hnl : ¬ i < i := lt_irrefl i
      have e : ∑ j ∈ Finset.range i, crossTerms 14 (rdDelta dyn.Deltas junk)
            (fun l => ((List.range 8).map (pop Y)).getD l 0) i j
            ((fun l => if l < i then s.getD l 0
              else ((List.range 8).map (structural (pop Y))).getD l 0) j)
            ((fun l => if l < i then s.getD l 0
              else ((List.range 8).map (structural (pop Y))).getD l 0) j) =
          ∑ j ∈ Finset.range i, crossTerms 14 (rdDelta dyn.Deltas junk)
            (fun l => ((List.range 8).map (pop Y)).getD l 0) i j
            (crossRead1 14 (rdDelta dyn.Deltas junk)
              (fun l => ((List.range 8).map (pop Y)).getD l 0)
              (fun l => if l < i then s.getD l 0
                else ((List.range 8).map (structural (pop Y))).getD l 0) i j)
            (crossRead2 14 (rdDelta dyn.Deltas junk)
              (fun l => ((List.range 8).map (pop Y)).getD l 0)
              (fun l => if l < i then s.getD l 0
                else ((List.range 8).map (structural (pop Y))).getD l 0) i j) := by
        apply Finset.sum_congr rfl
        intro j hj
        have hne : j ≠ i := by
          have := Finset.mem_range.mp hj
          omega
        simp only [crossRead1, crossRead2, if_neg hne]
      rw [← hsum i _ _ (by omega), ← e]
      simp only [crossRead1, if_pos, if_neg hnl, hS i (by omega)]
    · have e0 : u32 (14 * i + 2 * i + 0) = 14 * i + 2 * i := u32_of_lt (by omega)
      have e1 : u32 (14 * i + 2 * i + 1) = 14 * i + 2 * i + 1 := u32_of_lt (by omega)
      simp only [crossRead2, if_pos, e0, e1, hp i (by omega)]

/-- Witness of C10 at the cross-term configuration `exDynCross` and the state `exY`. -/
theorem zikaFunction_incidence_unperturbed_witness :
    (exDynCross.N_s = 7 ∧ exY.length = 8 ∧ (List.replicate 8 (0 : ℚ)).length = 8) ∧
      ∃ dY, zikaFunction exDynCross (fun _ => 0) 7 exY (List.replicate 8 0) =
          .ok (GSL_SUCCESS, dY) ∧ dY.length = 8 ∧
        dY[7]? = some (1 / 5.9 * max (exY.getD 1 0) 0) :=
  ⟨⟨rfl, rfl, rfl⟩,
    zikaFunction_incidence_unperturbed exDynCross (fun _ => 0) 7 exY (List.replicate 8 0)
      rfl rfl rfl⟩

/-- Witness of C8 at the LINEAR configuration `exDynLinear` and the state `exY`. -/
theorem zikaFunction_linear_witness :
    (exDynLinear.N_s = 7 ∧ exDynLinear.Inad_type = 1 ∧ exDynLinear.Params_factor = 2 ∧
        exDynLinear.Deltas.length = 14 ∧ exY.length = 8) ∧
      ∃ dY, zikaFunction exDynLinear (fun _ => 0) 7 exY (List.replicate 8 0) =
          .ok (GSL_SUCCESS, dY) ∧
        ∀ i, i < 7 → dY[i]? = some (structural (pop exY) i +
          exDynLinear.Deltas.getD (2 * i) 0 * pop exY i +
          exDynLinear.Deltas.getD (2 * i + 1) 0 * |structural (pop exY) i|) :=
  ⟨⟨rfl, rfl, rfl, rfl, rfl⟩,
    zikaFunction_linear exDynLinear (fun _ => 0) 7 exY (List.replicate 8 0)
      rfl rfl rfl rfl rfl rfl⟩

/-- The cross-term formulation at `exDynCross` and `exY`: the call returns. -/
theorem zikaFunction_cross_term_witness :
    (exDynCross.N_s = 7 ∧ exDynCross.Inad_type = 3 ∧ exDynCross.Params_factor = 14 ∧
        exY.length = 8) ∧
      ∃ dY, zikaFunction exDynCross (fun _ => 0) 7 exY (List.replicate 8 0) =
        .ok (GSL_SUCCESS, dY) :=
  ⟨⟨rfl, rfl, rfl, rfl⟩,
    (zikaFunction_cross_term exDynCross (fun _ => 0) 7 exY (List.replicate 8 0)
      rfl rfl rfl rfl rfl).imp (fun _ h => h.1)⟩

set_option maxRecDepth 100000 in
/-- Evaluation at `exDynCross` (only `δ[14] = 1`) and `exY`, with reads past the end of
the parameter vector yielding `0`: the code returns `dYdt[1] = 90` while the structural
derivative of compartment 1 is `-10`, so the term added to compartment 1 is
`100 = δ[14*1 + 2*0] * pop[0]`; the sum `claimedCrossTerm` is `0` there
(`δ[14] = δ[4*3+2]` multiplies `pop[3]^2 = 0`). -/
theorem zikaFunction_cross_term_counterexample :
    zikaFunction exDynCross (fun _ => 0) 7 exY (List.replicate 8 0) =
        .ok (GSL_SUCCESS, [0, 90, 0, 10, -79 / 1771600000, 79 / 1771600000, 0, 10]) ∧
      structural (pop exY) 1 = -10 ∧
      claimedCrossTerm 7 exDynCross.Deltas exY = 0 ∧
      (90 : ℚ) - structural (pop exY) 1 ≠ claimedCrossTerm 7 exDynCross.Deltas exY := by
  have h1 : structural (pop exY) 1 = -10 := by with_unfolding_all rfl
  have h2 : claimedCrossTerm 7 exDynCross.Deltas exY = 0 := by with_unfolding_all rfl
  refine ⟨by with_unfolding_all rfl, h1, h2, ?_⟩
  rw [h1, h2]; norm_num

theorem rd_ok {a : List ℚ} {i : Nat} {v : ℚ} (h : rd a i = .ok v) : a[i]? = some v := by
  unfold rd at h
  cases hq : a[i]? with
  | none => rw [hq] at h; cases h
  | some w => rw [hq] at h; cases h; rfl

theorem wr_ok {a r : List ℚ} {i : Nat} {v : ℚ} (h : wr a i v = .ok r) :
    i < a.length ∧ r = a.set i v := by
  unfold wr at h
  by_cases hi : i < a.length
  · rw [if_pos hi] at h; cases h; exact ⟨hi, rfl⟩
  · rw [if_neg hi] at h; cases h

theorem bind_ok {α β : Type} {x : Res α} {f : α → Res β} {b : β} (h : (x >>= f) = .ok b) :
    ∃ a, x = .ok a ∧ f a = .ok b := by
  cases x with
  | error e => cases h
  | ok a => exact ⟨a, rfl, h⟩

theorem bind_error {α β : Type} {x : Res α} {f : α → Res β} {e : Fault}
    (h : (x >>= f) = .error e) : x = .error e ∨ ∃ a, x = .ok a ∧ f a = .error e := by
  cases x with
  | error e1 => left; cases h; rfl
  | ok a => exact Or.inr ⟨a, rfl, h⟩

/-- The initialisation loop copies `initialValues` into `Y` and into the head of
`returnValues`. -/
theorem initLoop_eq (ics rv0 : List ℚ) (h : ics.length ≤ rv0.length) :
    ∃ rv1, initLoop ics.length ics rv0 = .ok (ics, rv1) ∧ rv1.length = rv0.length ∧
      (∀ j, j < ics.length → rv1[j]? = ics[j]?) ∧ ∀ j, ics.length ≤ j → rv1[j]? = rv0[j]? := by
  obtain ⟨s, h1, hY, hl, hlo, hhi⟩ := forLoop_inv
    (fun i (s : List ℚ × List ℚ) => do
      let Y ← wr s.1 i (← rd ics i)
      let rv ← wr s.2 i (← rd ics i)
      pure (Y, rv))
    (fun k (s : List ℚ × List ℚ) => s.1.length = ics.length ∧ s.2.length = rv0.length ∧
      (∀ j, j < k → s.1[j]? = ics[j]? ∧ s.2[j]? = ics[j]?) ∧ ∀ j, k ≤ j → s.2[j]? = rv0[j]?)
    ics.length 0 (List.replicate ics.length 0, rv0)
    ⟨by simp, rfl, fun j hj => absurd hj (Nat.not_lt_zero j), fun _ _ => rfl⟩
    (by
      intro k s _ hk ⟨hY, hl, hlo, hhi⟩
      have hk1 : k < ics.length := by omega
      have hkY : k < s.1.length := by omega
      have hkr : k < s.2.length := by omega
      refine ⟨(s.1.set k (ics.getD k 0), s.2.set k (ics.getD k 0)), ?_, by simpa using hY,
        by simpa using hl, ?_, ?_⟩
      · simp only [rd_of_lt hk1, wr_of_lt _ hkY, wr_of_lt _ hkr, ok_bind]; rfl
      · intro j hj
        by_cases hjk : j = k
        · subst hjk
          simp only [List.getElem?_set, hkY, hkr, if_true, getElem?_eq_some_getD hk1]
          simp
        · simp only [List.getElem?_set_ne (Ne.symm hjk)]; exact hlo j (by omega)
      · intro j hj
        simp only [List.getElem?_set_ne (show k ≠ j by omega)]; exact hhi j (by omega))
  have hs1 : s.1 = ics := by
    apply List.ext_getElem?
    intro j
    by_cases hj : j < ics.length
    · exact (hlo j (by omega)).1
    · rw [List.getElem?_eq_none (by omega), List.getElem?_eq_none (by omega)]
  refine ⟨s.2, ?_, hl, fun j hj => (hlo j (by omega)).2, by simpa using hhi⟩
  rw [initLoop, h1, ← hs1]

theorem integrateUntil_of_not_lt {σ : Type} (G : Integrator σ) (finalTime : ℚ) (fuel : Nat)
    (d : σ) (t : ℚ) (Y : List ℚ) (h : ¬ t < finalTime) :
    integrateUntil G finalTime fuel d t Y = .ok (d, t, Y) := by
  cases fuel <;> simp only [integrateUntil, if_neg h]

/-- On a driver that reaches its targets the `while` loop makes one call when the target
lies ahead and none otherwise. -/
theorem integrateUntil_reaches {σ : Type} (G : Integrator σ) (hG : G.Reaches) (finalTime : ℚ)
    (fuel : Nat) (hf : 0 < fuel) (d : σ) (t : ℚ) (Y : List ℚ) :
    integrateUntil G finalTime fuel d t Y =
      .ok (if t < finalTime then (G.apply d t finalTime Y).2 else (d, t, Y)) := by
  by_cases h : t < finalTime
  · obtain ⟨n, rfl⟩ : ∃ n, fuel = n + 1 := ⟨fuel - 1, by omega⟩
    obtain ⟨hs, ht, _⟩ := hG d t finalTime Y h
    simp only [integrateUntil, if_pos h, hs, ne_eq, not_true_eq_false, if_false]
    rw [integrateUntil_of_not_lt G finalTime n _ _ _ (not_lt.mpr ht)]
  · rw [integrateUntil_of_not_lt G finalTime fuel d t Y h, if_neg h]

/-- The copy of the state into row `i` of `returnValues`. -/
theorem saveRow_eq (dim i : Nat) (Y rv : List ℚ) (hY : Y.length = dim)
    (hr : dim * i + dim ≤ rv.length) (h32 : dim * i + dim ≤ 2 ^ 32) :
    ∃ rv1, saveRow dim i Y rv = .ok rv1 ∧ rv1.length = rv.length ∧
      (∀ j, j < dim → rv1[dim * i + j]? = Y[j]?) ∧
      ∀ k, (k < dim * i ∨ dim * i + dim ≤ k) → rv1[k]? = rv[k]? := by
  obtain ⟨rv1, h1, hl, hlo, hhi⟩ := forLoop_inv
    (fun j rv => do wr rv (u32 (dim * i + j)) (← rd Y j))
    (fun k (s : List ℚ) => s.length = rv.length ∧
      (∀ j, j < k → s[dim * i + j]? = Y[j]?) ∧
      ∀ l, (l < dim * i ∨ dim * i + k ≤ l) → s[l]? = rv[l]?)
    dim 0 rv ⟨rfl, fun j hj => absurd hj (Nat.not_lt_zero j), fun _ _ => rfl⟩
    (by
      intro k s _ hk ⟨hl, hlo, hhi⟩
      have hkY : k < Y.length := by omega
      have hu : u32 (dim * i + k) = dim * i + k := u32_of_lt (by omega)
      have hks : dim * i + k < s.length := by omega
      refine ⟨s.set (dim * i + k) (Y.getD k 0), ?_, by simpa using hl, ?_, ?_⟩
      · simp only [rd_of_lt hkY, hu, wr_of_lt _ hks, ok_bind]
      · intro j hj
        by_cases hjk : j = k
        · subst hjk
          simp only [List.getElem?_set, hks, if_true, getElem?_eq_some_getD hkY]
        · rw [List.getElem?_set_ne (by omega)]; exact hlo j (by omega)
      · intro l hl2
        rw [List.getElem?_set_ne (by omega)]; exact hhi l (by omega))
  exact ⟨rv1, h1, hl, by simpa using hlo, fun k hk => hhi k (by omega)⟩

theorem stateAt_length {σ : Type} (G : Integrator σ) (hG : G.Reaches) (d0 : σ)
    (Y0 timePoints : List ℚ) (i : Nat) : (stateAt G d0 Y0 timePoints i).2.2.length = Y0.length := by
  induction i with
  | zero => rfl
  | succ i ih =>
    simp only [stateAt]
    split_ifs with h
    · rw [(hG _ _ _ _ h).2.2, ih]
    · exact ih

/-- One pass of the time loop on a driver that reaches its targets: the state becomes the
next `stateAt` and is stored in row `k`. -/
theorem timeStep_reaches {σ : Type} (G : Integrator σ) (hG : G.Reaches) (fuel : Nat)
    (hf : 0 < fuel) (d0 : σ) (ics tp rv : List ℚ) (k : Nat) (hk : k + 1 < tp.length)
    (hr : ics.length * (k + 1) + ics.length ≤ rv.length)
    (h32 : ics.length * (k + 1) + ics.length ≤ 2 ^ 32) :
    ∃ rv1, timeStep G fuel ics.length tp (k + 1)
        ((stateAt G d0 ics tp k).1, (stateAt G d0 ics tp k).2.1,
          (stateAt G d0 ics tp k).2.2, rv) =
        .ok ((stateAt G d0 ics tp (k + 1)).1, (stateAt G d0 ics tp (k + 1)).2.1,
          (stateAt G d0 ics tp (k + 1)).2.2, rv1) ∧
      rv1.length = rv.length ∧
      (∀ j, j < ics.length →
        rv1[ics.length * (k + 1) + j]? = (stateAt G d0 ics tp (k + 1)).2.2[j]?) ∧
      ∀ l, (l < ics.length * (k + 1) ∨ ics.length * (k + 1) + ics.length ≤ l) →
        rv1[l]? = rv[l]? := by
  obtain ⟨rv1, h1, hl, hrow, hfr⟩ := saveRow_eq ics.length (k + 1)
    (stateAt G d0 ics tp (k + 1)).2.2 rv (stateAt_length G hG d0 ics tp (k + 1)) hr h32
  refine ⟨rv1, ?_, hl, hrow, hfr⟩
  have hst : (if (stateAt G d0 ics tp k).2.1 < tp.getD (k + 1) 0 then
        (G.apply (stateAt G d0 ics tp k).1 (stateAt G d0 ics tp k).2.1 (tp.getD (k + 1) 0)
          (stateAt G d0 ics tp k).2.2).2
      else ((stateAt G d0 ics tp k).1, (stateAt G d0 ics tp k).2.1,
        (stateAt G d0 ics tp k).2.2)) = stateAt G d0 ics tp (k + 1) := by
    simp only [stateAt]
  simp only [timeStep, rd_of_lt hk, ok_bind, integrateUntil_reaches G hG _ fuel hf, hst, h1]
  rfl

/-- C3 (amended): on a driver that reaches its targets, for `timeStepCount ≥ 1` time points
and a buffer of `timeStepCount * dim` entries, `zikaComputeModel` returns a trajectory of
exactly `timeStepCount` rows of length `dim`: row 0 is the initial condition and row `i`,
`1 ≤ i < timeStepCount`, is the state reached for the time point `timePoints[i]`. -/
theorem zikaComputeModel_rows {σ : Type} (G : Integrator σ) (hG : G.Reaches) (fuel : Nat)
    (hf : 0 < fuel) (junk : Nat → ℚ) (ics tp : List ℚ) (dyn : dynamics_info) (rv0 : List ℚ)
    (hT : 0 < tp.length) (h32 : tp.length * ics.length < 2 ^ 32)
    (hrv : rv0.length = tp.length * ics.length) :
    ∃ rv, zikaComputeModel G fuel junk ics tp dyn rv0 = .ok rv ∧
      rv.length = tp.length * ics.length ∧
      (∀ j, j < ics.length → rv[j]? = ics[j]?) ∧
      ∀ i, i < tp.length → ∀ j, j < ics.length →
        rv[ics.length * i + j]? =
          (stateAt G (zikaDriver G dyn junk ics.length) ics tp i).2.2[j]? := by
  have hmul : ∀ k, k < tp.length → ics.length * k + ics.length ≤ tp.length * ics.length := by
    intro k hk
    calc ics.length * k + ics.length = (k + 1) * ics.length := by ring
      _ ≤ tp.length * ics.length := Nat.mul_le_mul_right _ (by omega)
  have hdim : ics.length < 2 ^ 32 := by
    have := hmul 0 hT
    omega
  have hu : u32 ics.length = ics.length := u32_of_lt hdim
  obtain ⟨rv1, hi1, hl1, hrow0, _⟩ := initLoop_eq ics rv0 (by have := hmul 0 hT; omega)
  obtain ⟨s, hs, _, hl, hrows⟩ := forLoop_inv (timeStep G fuel ics.length tp)
    (fun k (s : σ × ℚ × List ℚ × List ℚ) =>
      (s.1, s.2.1, s.2.2.1) = stateAt G (zikaDriver G dyn junk ics.length) ics tp (k - 1) ∧
      s.2.2.2.length = rv0.length ∧
      ∀ i, i < k → ∀ j, j < ics.length → s.2.2.2[ics.length * i + j]? =
        (stateAt G (zikaDriver G dyn junk ics.length) ics tp i).2.2[j]?)
    (tp.length - 1) 1 (zikaDriver G dyn junk ics.length, 7.0, ics, rv1)
    ⟨rfl, hl1, fun i hi j hj => by
      have : i = 0 := by omega
      subst this
      simpa using hrow0 j hj⟩
    (by
      intro k s hk1 hk2 ⟨hst, hl, hrows⟩
      obtain ⟨k, rfl⟩ : ∃ n, k = n + 1 := ⟨k - 1, by omega⟩
      have hkT : k + 1 < tp.length := by omega
      obtain ⟨rv2, h2, hl2, hrow, hfr⟩ := timeStep_reaches G hG fuel hf
        (zikaDriver G dyn junk ics.length) ics tp s.2.2.2 k hkT
        (by have := hmul (k + 1) hkT; omega) (by have := hmul (k + 1) hkT; omega)
      simp only [Nat.add_sub_cancel] at hst
      have hs : s = ((stateAt G (zikaDriver G dyn junk ics.length) ics tp k).1,
          (stateAt G (zikaDriver G dyn junk ics.length) ics tp k).2.1,
          (stateAt G (zikaDriver G dyn junk ics.length) ics tp k).2.2, s.2.2.2) := by
        rw [← hst]
      refine ⟨_, by rw [hs]; exact h2, rfl, by rw [hl2]; exact hl, ?_⟩
      intro i hi j hj
      by_cases hik : i = k + 1
      · subst hik; exact hrow j hj
      · have hlt : ics.length * i + j < ics.length * (k + 1) := by
          calc ics.length * i + j < ics.length * i + ics.length := by omega
            _ = ics.length * (i + 1) := by ring
            _ ≤ ics.length * (k + 1) := Nat.mul_le_mul_left _ (by omega)
        rw [hfr _ (Or.inl hlt)]; exact hrows i (by omega) j hj)
  refine ⟨s.2.2.2, ?_, by rw [hl, hrv], ?_, ?_⟩
  · simp only [zikaComputeModel, hu, hi1, ok_bind]
    rw [hs]
    rfl
  · intro j hj
    have := hrows 0 (by omega) j hj
    simpa [stateAt] using this
  · intro i hi j hj
    exact hrows i (by omega) j hj

/-- When the initialisation loop returns, the buffer has kept its length and starts with
the initial values. -/
theorem initLoop_ok (dim : Nat) (ics rv0 : List ℚ) (s : List ℚ × List ℚ)
    (h : initLoop dim ics rv0 = .ok s) :
    s.2.length = rv0.length ∧ ∀ j, j < dim → s.2[j]? = ics[j]? := by
  have := forLoop_inv_of_ok
    (fun i (s : List ℚ × List ℚ) => do
      let Y ← wr s.1 i (← rd ics i)
      let rv ← wr s.2 i (← rd ics i)
      pure (Y, rv))
    (fun k (s : List ℚ × List ℚ) => s.2.length = rv0.length ∧ ∀ j, j < k → s.2[j]? = ics[j]?)
    dim 0 (List.replicate dim 0, rv0) s ⟨rfl, fun j hj => absurd hj (Nat.not_lt_zero j)⟩
    (by
      intro k s s1 _ _ ⟨hl, hlo⟩ hb
      obtain ⟨a, ha, hb⟩ := bind_ok hb
      obtain ⟨Y, _, hb⟩ := bind_ok hb
      obtain ⟨b, hb1, hb⟩ := bind_ok hb
      obtain ⟨rv, hrv, hb⟩ := bind_ok hb
      cases hb
      obtain ⟨hk, rfl⟩ := wr_ok hrv
      refine ⟨by simpa using hl, ?_⟩
      intro j hj
      by_cases hjk : j = k
      · subst hjk
        simp only [List.getElem?_set, hk, if_true, rd_ok hb1]
      · simp only [List.getElem?_set_ne (Ne.symm hjk)]; exact hlo j (by omega))
    h
  simpa using this

/-- When the copy of a row returns, the buffer has kept its length and, the index
arithmetic not wrapping, every entry before the row. -/
theorem saveRow_ok (dim i : Nat) (Y rv rv1 : List ℚ) (h : saveRow dim i Y rv = .ok rv1) :
    rv1.length = rv.length ∧
      (dim * i + dim ≤ 2 ^ 32 → ∀ l, l < dim * i → rv1[l]? = rv[l]?) := by
  have := forLoop_inv_of_ok
    (fun j rv => do wr rv (u32 (dim * i + j)) (← rd Y j))
    (fun _ (s : List ℚ) => s.length = rv.length ∧
      (dim * i + dim ≤ 2 ^ 32 → ∀ l, l < dim * i → s[l]? = rv[l]?))
    dim 0 rv rv1 ⟨rfl, fun _ _ _ => rfl⟩
    (by
      intro k s s1 _ hk ⟨hl, hlo⟩ hb
      obtain ⟨a, _, hb⟩ := bind_ok hb
      obtain ⟨_, rfl⟩ := wr_ok hb
      refine ⟨by simpa using hl, ?_⟩
      intro h32 l hl2
      have hu : u32 (dim * i + k) = dim * i + k := u32_of_lt (by omega)
      rw [hu, List.getElem?_set_ne (by omega)]
      exact hlo h32 l hl2)
    h
  exact this

/-- When one pass of the time loop returns, the buffer has kept its length and, the index
arithmetic not wrapping, every entry before row `i`. -/
theorem timeStep_ok {σ : Type} (G : Integrator σ) (fuel dim : Nat) (tp : List ℚ) (i : Nat)
    (s s1 : σ × ℚ × List ℚ × List ℚ) (h : timeStep G fuel dim tp i s = .ok s1) :
    s1.2.2.2.length = s.2.2.2.length ∧
      (dim * i + dim ≤ 2 ^ 32 → ∀ l, l < dim * i → s1.2.2.2[l]? = s.2.2.2[l]?) := by
  unfold timeStep at h
  obtain ⟨ft, _, h⟩ := bind_ok h
  obtain ⟨r, _, h⟩ := bind_ok h
  obtain ⟨rv, hrv, h⟩ := bind_ok h
  cases h
  exact saveRow_ok dim i r.2.2 s.2.2.2 rv hrv

/-- When the forward model returns, the buffer has kept its length. -/
theorem zikaComputeModel_length {σ : Type} (G : Integrator σ) (fuel : Nat) (junk : Nat → ℚ)
    (ics tp : List ℚ) (dyn : dynamics_info) (rv0 rv : List ℚ)
    (h : zikaComputeModel G fuel junk ics tp dyn rv0 = .ok rv) : rv.length = rv0.length := by
  unfold zikaComputeModel at h
  obtain ⟨s1, hs1, h⟩ := bind_ok h
  obtain ⟨s2, hs2, h⟩ := bind_ok h
  cases h
  have hl := forLoop_inv_of_ok (timeStep G fuel (u32 ics.length) tp)
    (fun _ (s : σ × ℚ × List ℚ × List ℚ) => s.2.2.2.length = rv0.length)
    (tp.length - 1) 1 _ s2 (initLoop_ok _ ics rv0 s1 hs1).1
    (fun k s s1 _ _ hP hb => by
      show s1.2.2.2.length = rv0.length
      rw [(timeStep_ok G fuel _ tp k s s1 hb).1]; exact hP)
    hs2
  exact hl

/-- When the forward model returns, and the index arithmetic does not wrap, the buffer
starts with the initial values. -/
theorem zikaComputeModel_head {σ : Type} (G : Integrator σ) (fuel : Nat)
    (junk : Nat → ℚ) (ics tp : List ℚ) (dyn : dynamics_info) (rv0 rv : List ℚ)
    (hdim : ics.length < 2 ^ 32) (h32 : tp.length * ics.length ≤ 2 ^ 32)
    (h : zikaComputeModel G fuel junk ics tp dyn rv0 = .ok rv) :
    ∀ j, j < ics.length → rv[j]? = ics[j]? := by
  unfold zikaComputeModel at h
  rw [u32_of_lt hdim] at h
  obtain ⟨s1, hs1, h⟩ := bind_ok h
  obtain ⟨s2, hs2, h⟩ := bind_ok h
  cases h
  have hrow := forLoop_inv_of_ok (timeStep G fuel ics.length tp)
    (fun _ (s : σ × ℚ × List ℚ × List ℚ) => ∀ j, j < ics.length → s.2.2.2[j]? = ics[j]?)
    (tp.length - 1) 1 _ s2 (initLoop_ok _ ics rv0 s1 hs1).2
    (fun k s s1 hk1 hk2 hP hb => by
      intro j hj
      have hle : ics.length * k + ics.length ≤ 2 ^ 32 := by
        calc ics.length * k + ics.length = (k + 1) * ics.length := by ring
          _ ≤ tp.length * ics.length := Nat.mul_le_mul_right _ (by omega)
          _ ≤ 2 ^ 32 := h32
      have hge : ics.length * 1 ≤ ics.length * k := Nat.mul_le_mul_left _ hk1
      rw [(timeStep_ok G fuel _ tp k s s1 hb).2 hle j (by omega)]
      exact hP j hj)
    hs2
  exact hrow

/-- C4: whenever `zikaComputeModel` returns, the first `dim` entries of `returnValues`
(row 0 of the trajectory) are the entries of `initialValues`, for every driver, time
sequence, formulation and parameter vector; the sizes are those for which the `unsigned`
index arithmetic is exact. -/
theorem zikaComputeModel_row_zero {σ : Type} (G : Integrator σ) (fuel : Nat)
    (junk : Nat → ℚ) (ics tp : List ℚ) (dyn : dynamics_info) (rv0 rv : List ℚ)
    (hdim : ics.length < 2 ^ 32) (h32 : tp.length * ics.length ≤ 2 ^ 32)
    (h : zikaComputeModel G fuel junk ics tp dyn rv0 = .ok rv) :
    ∀ j, j < ics.length → rv[j]? = ics[j]? := by
  intro j hj
  exact zikaComputeModel_head G fuel junk ics tp dyn rv0 rv hdim h32 h j hj

/-! ## The copy loops of `likelihoodRoutine` and `qoiRoutine` -/

theorem forLoop_congr {α : Type} (f g : Nat → α → Res α) :
    ∀ (n i : Nat) (s : α), (∀ k s, i ≤ k → k < i + n → f k s = g k s) →
      forLoop f n i s = forLoop g n i s := by
  intro n
  induction n with
  | zero => intro i s _; rfl
  | succ n ih =>
    intro i s h
    simp only [forLoop, h i s (le_refl i) (by omega)]
    cases g i s with
    | error e => rfl
    | ok s1 => exact ih (i + 1) s1 (fun k s hk hk2 => h k s (by omega) (by omega))

/-- A loop `dst[i] = src[i]` for `i < n` within both vectors returns `dst` with its first
`n` entries replaced by those of `src`. -/
theorem copyLoop_eq (src dst : List ℚ) (n : Nat) (hs : n ≤ src.length)
    (hd : n ≤ dst.length) :
    forLoop (fun i d => do wr d i (← rd src i)) n 0 dst = .ok (src.take n ++ dst.drop n) := by
  obtain ⟨r, h1, hl, hlo, hhi⟩ := forLoop_inv (fun i d => do wr d i (← rd src i))
    (fun k (s : List ℚ) => s.length = dst.length ∧ (∀ j, j < k → s[j]? = src[j]?) ∧
      ∀ j, k ≤ j → s[j]? = dst[j]?)
    n 0 dst ⟨rfl, fun j hj => absurd hj (Nat.not_lt_zero j), fun _ _ => rfl⟩
    (by
      intro k s _ hk ⟨hl, hlo, hhi⟩
      have hks : k < src.length := by omega
      have hkd : k < s.length := by omega
      refine ⟨s.set k (src.getD k 0), ?_, by simpa using hl, ?_, ?_⟩
      · simp only [rd_of_lt hks, wr_of_lt _ hkd, ok_bind]
      · intro j hj
        by_cases hjk : j = k
        · subst hjk
          simp only [List.getElem?_set, hkd, if_true, getElem?_eq_some_getD hks]
        · rw [List.getElem?_set_ne (Ne.symm hjk)]; exact hlo j (by omega)
      · intro j hj
        rw [List.getElem?_set_ne (by omega)]; exact hhi j (by omega))
  rw [h1]
  congr 1
  apply List.ext_getElem?
  intro j
  by_cases hj : j < n
  · rw [hlo j (by omega), List.getElem?_append_left (by simp; omega), List.getElem?_take_of_lt hj]
  · have hlen : (src.take n).length = n := by simp; omega
    rw [hhi j (by omega), List.getElem?_append_right (by omega), hlen, List.getElem?_drop]
    congr 1
    omega

theorem copyTimes_eq (times : List ℚ) : copyTimes times.length times = .ok times := by
  rw [copyTimes, copyLoop_eq times _ times.length (le_refl _) (by simp)]
  simp

theorem copyParams_eq (pv Deltas : List ℚ) (h : pv.length = Deltas.length) :
    copyParams pv.length pv Deltas = .ok pv := by
  rw [copyParams, copyLoop_eq pv _ pv.length (le_refl _) (by omega)]
  simp [h]

/-! ## `likelihoodRoutine` -/

/-- The routine after its two copy loops: the `try` block on the written buffer. -/
theorem likelihoodRoutine_eq {σ : Type} (G : Integrator σ) (fuel : Nat) (junk : Nat → ℚ)
    (pv : List ℚ) (data : likelihoodRoutine_Data) (tp D : List ℚ)
    (hT : copyTimes data.m_dynMain.N_times data.m_times = .ok tp)
    (hD : copyParams (u32 (data.m_dynMain.Params_factor * data.m_dynMain.N_s)) pv
      data.m_dynMain.Deltas = .ok D) :
    likelihoodRoutine G fuel junk pv data =
      (catchInt (zikaComputeModel G fuel junk data.m_ics tp
          { data.m_dynMain with Deltas := D }
          (List.replicate (u32 (data.m_dynMain.N_times * u32 (data.m_dynMain.N_s + 1))) 0) >>=
        fun rv => misfitLoop (u32 (data.m_dynMain.N_s + 1)) data.m_dynMain.N_times rv
          data.m_csc data.m_var)) >>= fun m => pure (-0.5 * m, D) := by
  simp only [likelihoodRoutine, hT, hD, ok_bind]

/-- The two copy loops on a configuration whose vectors have the configured lengths. -/
theorem copies_of_lengths (n_times pf n_s : Nat) (times pv Deltas : List ℚ)
    (hT : times.length = n_times) (hP : pv.length = pf * n_s)
    (hD : Deltas.length = pf * n_s) (h32 : pf * n_s < 2 ^ 32) :
    copyTimes n_times times = .ok times ∧ copyParams (u32 (pf * n_s)) pv Deltas = .ok pv := by
  constructor
  · rw [← hT]; exact copyTimes_eq times
  · rw [u32_of_lt h32, ← hP]; exact copyParams_eq pv Deltas (by omega)

/-- When the target lies ahead and the driver reports a status other than `GSL_SUCCESS`,
the `while` loop ends in the failed assertion. -/
theorem integrateUntil_assert {σ : Type} (G : Integrator σ) (finalTime : ℚ) (fuel : Nat)
    (d : σ) (t : ℚ) (Y : List ℚ) (ht : t < finalTime)
    (hs : (G.apply d t finalTime Y).1 ≠ GSL_SUCCESS) :
    integrateUntil G finalTime (fuel + 1) d t Y = .error .assertFailed := by
  simp only [integrateUntil, if_pos ht, hs, ne_eq, not_false_eq_true, if_true]

theorem integrateUntil_no_throw {σ : Type} (G : Integrator σ) (finalTime : ℚ) :
    ∀ (fuel : Nat) (d : σ) (t : ℚ) (Y : List ℚ) (e : Fault),
      integrateUntil G finalTime fuel d t Y = .error e → ∀ c, e ≠ .thrown c := by
  intro fuel
  induction fuel with
  | zero =>
    intro d t Y e h c
    simp only [integrateUntil] at h
    split_ifs at h
    cases h
    exact Fault.noConfusion
  | succ n ih =>
    intro d t Y e h c
    simp only [integrateUntil] at h
    split_ifs at h with h1 h2
    · cases h; exact Fault.noConfusion
    · exact ih _ _ _ e h c

theorem rd_no_throw {a : List ℚ} {i : Nat} {e : Fault} (h : rd a i = .error e) :
    ∀ c, e ≠ .thrown c := by
  unfold rd at h
  cases hq : a[i]? with
  | none => rw [hq] at h; cases h; exact fun _ => Fault.noConfusion
  | some w => rw [hq] at h; cases h

theorem wr_no_throw {a : List ℚ} {i : Nat} {v : ℚ} {e : Fault} (h : wr a i v = .error e) :
    ∀ c, e ≠ .thrown c := by
  unfold wr at h
  split_ifs at h
  cases h
  exact fun _ => Fault.noConfusion

/-- The forward model raises no `int` exception: its faults are a failed assertion, an
access out of range or the exhausted fuel. -/
theorem zikaComputeModel_no_throw {σ : Type} (G : Integrator σ) (fuel : Nat)
    (junk : Nat → ℚ) (ics tp : List ℚ) (dyn : dynamics_info) (rv0 : List ℚ) (e : Fault)
    (h : zikaComputeModel G fuel junk ics tp dyn rv0 = .error e) : ∀ c, e ≠ .thrown c := by
  unfold zikaComputeModel at h
  rcases bind_error h with h1 | ⟨s1, _, h⟩
  · refine forLoop_error _ (fun e => ∀ c, e ≠ .thrown c) ?_ _ _ _ e h1
    intro k s e hb
    rcases bind_error hb with h | ⟨a, _, hb⟩
    · exact rd_no_throw h
    rcases bind_error hb with h | ⟨Y, _, hb⟩
    · exact wr_no_throw h
    rcases bind_error hb with h | ⟨b, _, hb⟩
    · exact rd_no_throw h
    rcases bind_error hb with h | ⟨rv, _, hb⟩
    · exact wr_no_throw h
    · cases hb
  rcases bind_error h with h2 | ⟨s2, _, h⟩
  · refine forLoop_error _ (fun e => ∀ c, e ≠ .thrown c) ?_ _ _ _ e h2
    intro k s e hb
    unfold timeStep at hb
    rcases bind_error hb with h | ⟨ft, _, hb⟩
    · exact rd_no_throw h
    rcases bind_error hb with h | ⟨r, _, hb⟩
    · exact integrateUntil_no_throw G ft fuel _ _ _ e h
    rcases bind_error hb with h | ⟨rv, _, hb⟩
    · refine forLoop_error _ (fun e => ∀ c, e ≠ .thrown c) ?_ _ _ _ e h
      intro j s e hb
      rcases bind_error hb with h | ⟨a, _, hb⟩
      · exact rd_no_throw h
      · exact wr_no_throw hb
    · cases hb
  · cases h

/-- C1 (amended): on a configuration whose vectors have the configured lengths, when the
forward model ends with a fault, `likelihoodRoutine` ends with the same fault and returns
no value; the fault is never an `int` exception, so the sentinel branch
`misfitValue = 1000000` is not taken.  A status other than `GSL_SUCCESS` reported by the
integrator for a target that lies ahead is such a fault: the failed assertion. -/
theorem likelihoodRoutine_fault {σ : Type} (G : Integrator σ) (fuel : Nat) (junk : Nat → ℚ)
    (pv : List ℚ) (data : likelihoodRoutine_Data) (e : Fault)
    (hT : data.m_times.length = data.m_dynMain.N_times)
    (hP : pv.length = data.m_dynMain.Params_factor * data.m_dynMain.N_s)
    (hD : data.m_dynMain.Deltas.length = data.m_dynMain.Params_factor * data.m_dynMain.N_s)
    (h32 : data.m_dynMain.Params_factor * data.m_dynMain.N_s < 2 ^ 32)
    (hF : zikaComputeModel G fuel junk data.m_ics data.m_times
      { data.m_dynMain with Deltas := pv }
      (List.replicate (u32 (data.m_dynMain.N_times * u32 (data.m_dynMain.N_s + 1))) 0) =
        .error e) :
    likelihoodRoutine G fuel junk pv data = .error e ∧ (∀ c, e ≠ .thrown c) ∧
      ∀ (finalTime : ℚ) (n : Nat) (d : σ) (t : ℚ) (Y : List ℚ), t < finalTime →
        (G.apply d t finalTime Y).1 ≠ GSL_SUCCESS →
        integrateUntil G finalTime (n + 1) d t Y = .error .assertFailed := by
  obtain ⟨h1, h2⟩ := copies_of_lengths _ _ _ _ pv _ hT hP hD h32
  have hne := zikaComputeModel_no_throw G fuel junk _ _ _ _ e hF
  refine ⟨?_, hne, fun ft n d t Y ht hs => integrateUntil_assert G ft n d t Y ht hs⟩
  rw [likelihoodRoutine_eq G fuel junk pv data _ _ h1 h2, hF]
  cases e with
  | thrown c => exact absurd rfl (hne c)
  | assertFailed => rfl
  | outOfRange => rfl
  | outOfFuel => rfl

/-- The misfit loop within both vectors returns the sum of the squared residuals over the
variance, row `j` of the buffer against `csc[j]`. -/
theorem misfitLoop_eq (dim n : Nat) (rv csc : List ℚ) (var : ℚ)
    (hr : ∀ j, j < n → u32 (dim * j + 7) < rv.length) (hc : n ≤ csc.length) :
    misfitLoop dim n rv csc var =
      .ok (∑ j ∈ Finset.range n,
        (rv.getD (u32 (dim * j + 7)) 0 - csc.getD j 0) ^ 2 / var) := by
  obtain ⟨m, h1, hm⟩ := forLoop_inv
    (fun j misfitValue => do
      let diff := (← rd rv (u32 (dim * j + 7))) - (← rd csc j)
      pure (misfitValue + diff * diff / var))
    (fun k (m : ℚ) => m = ∑ j ∈ Finset.range k,
      (rv.getD (u32 (dim * j + 7)) 0 - csc.getD j 0) ^ 2 / var)
    n 0 0 (by simp)
    (by
      intro k m _ hk hm
      refine ⟨m + (rv.getD (u32 (dim * k + 7)) 0 - csc.getD k 0) *
        (rv.getD (u32 (dim * k + 7)) 0 - csc.getD k 0) / var, ?_, ?_⟩
      · simp only [rd_of_lt (hr k (by omega)), rd_of_lt (show k < csc.length by omega),
          ok_bind]
        rfl
      · show _ = ∑ j ∈ Finset.range (k + 1),
          (rv.getD (u32 (dim * j + 7)) 0 - csc.getD j 0) ^ 2 / var
        rw [Finset.sum_range_succ, ← hm, sq])
  rw [misfitLoop, h1]
  congr 1
  simpa using hm

/-- C2 (amended): with `N_s = 7`, `var > 0`, `N = N_times` observation times and vectors
of the configured lengths, when the forward model returns the buffer `rv`,
`likelihoodRoutine` returns `-0.5 * Σ_{j < N} (rv[8j + 7] - csc[j])^2 / var`: the sum runs
over the rows `0..N-1` of the trajectory, each against the observed value of the same
index, and row 0 is the initial condition, whose residual `ics[7] - csc[0]` is part of the
sum. -/
theorem likelihoodRoutine_misfit {σ : Type} (G : Integrator σ) (fuel : Nat)
    (junk : Nat → ℚ) (pv : List ℚ) (data : likelihoodRoutine_Data) (rv : List ℚ)
    (hN : data.m_dynMain.N_s = 7) (_hvar : 0 < data.m_var)
    (hT : data.m_times.length = data.m_dynMain.N_times)
    (hC : data.m_csc.length = data.m_dynMain.N_times)
    (hI : data.m_ics.length = 8)
    (hP : pv.length = data.m_dynMain.Params_factor * data.m_dynMain.N_s)
    (hD : data.m_dynMain.Deltas.length = data.m_dynMain.Params_factor * data.m_dynMain.N_s)
    (hP32 : data.m_dynMain.Params_factor * data.m_dynMain.N_s < 2 ^ 32)
    (h32 : data.m_dynMain.N_times * 8 < 2 ^ 32)
    (hF : zikaComputeModel G fuel junk data.m_ics data.m_times
      { data.m_dynMain with Deltas := pv }
      (List.replicate (data.m_dynMain.N_times * 8) 0) = .ok rv) :
    likelihoodRoutine G fuel junk pv data =
        .ok (-0.5 * ∑ j ∈ Finset.range data.m_dynMain.N_times,
          (rv.getD (8 * j + 7) 0 - data.m_csc.getD j 0) ^ 2 / data.m_var, pv) ∧
      (0 < data.m_dynMain.N_times → rv.getD 7 0 = data.m_ics.getD 7 0) := by
  obtain ⟨h1, h2⟩ := copies_of_lengths _ _ _ _ pv _ hT hP hD hP32
  have h8 : u32 (7 + 1) = 8 := by decide
  have hu : u32 (data.m_dynMain.N_times * 8) = data.m_dynMain.N_times * 8 := u32_of_lt h32
  have hlen : rv.length = data.m_dynMain.N_times * 8 := by
    rw [zikaComputeModel_length G fuel junk _ _ _ _ rv hF]; simp
  have hidx : ∀ j, j < data.m_dynMain.N_times → u32 (8 * j + 7) = 8 * j + 7 :=
    fun j hj => u32_of_lt (by omega)
  have hm := misfitLoop_eq 8 data.m_dynMain.N_times rv data.m_csc data.m_var
    (fun j hj => by rw [hidx j hj]; omega) (by omega)
  have hsum : ∑ j ∈ Finset.range data.m_dynMain.N_times,
      (rv.getD (u32 (8 * j + 7)) 0 - data.m_csc.getD j 0) ^ 2 / data.m_var =
      ∑ j ∈ Finset.range data.m_dynMain.N_times,
        (rv.getD (8 * j + 7) 0 - data.m_csc.getD j 0) ^ 2 / data.m_var :=
    Finset.sum_congr rfl (fun j hj => by rw [hidx j (Finset.mem_range.mp hj)])
  constructor
  · rw [likelihoodRoutine_eq G fuel junk pv data _ _ h1 h2, hN, h8, hu, hF]
    simp only [ok_bind, hm, hsum, catchInt]
    rfl
  · intro hpos
    have h0 := zikaComputeModel_head G fuel junk _ _ _ _ rv (by omega)
      (by rw [hT, hI]; omega) hF 7 (by omega)
    simp only [List.getD_eq_getElem?_getD, h0]

theorem rd_take (pv : List ℚ) (n k : Nat) (h : k < n) : rd (pv.take n) k = rd pv k := by
  simp only [rd, List.getElem?_take_of_lt h]

/-- The parameter copy reads only the first `n_params` entries of `paramValues`. -/
theorem copyParams_take (n : Nat) (pv Deltas : List ℚ) :
    copyParams n (pv.take n) Deltas = copyParams n pv Deltas := by
  unfold copyParams
  apply forLoop_congr
  intro k s _ hk
  rw [rd_take pv n k (by omega)]

/-- C7 (amended): `likelihoodRoutine` compares no lengths.  It reads the first
`Params_factor * N_s` entries of `paramValues` and nothing else of it, so for every
`paramValues`, also one longer than the buffer, the outcome (value, buffer written or
fault) is that for the vector cut to its first `Params_factor * N_s` entries: nothing is
reported on account of the extra entries. -/
theorem likelihoodRoutine_ignores_extra_params {σ : Type} (G : Integrator σ) (fuel : Nat)
    (junk : Nat → ℚ) (pv : List ℚ) (data : likelihoodRoutine_Data) :
    likelihoodRoutine G fuel junk pv data =
      likelihoodRoutine G fuel junk
        (pv.take (u32 (data.m_dynMain.Params_factor * data.m_dynMain.N_s))) data := by
  simp only [likelihoodRoutine, copyParams_take]

/-! ## `qoiRoutine` -/

/-- The routine after its two copy loops: the `try`/`catch` on the written buffer. -/
theorem qoiRoutine_eq {σ : Type} (G : Integrator σ) (fuel : Nat) (junk : Nat → ℚ)
    (pv : List ℚ) (data : qoiRoutine_Data) (qv tp D : List ℚ)
    (hT : copyTimes data.m_dynMain.N_times data.m_times = .ok tp)
    (hD : copyParams (u32 (data.m_dynMain.Params_factor * data.m_dynMain.N_s)) pv
      data.m_dynMain.Deltas = .ok D) :
    qoiRoutine G fuel junk pv data qv =
      qoiFinish (zikaComputeModel G fuel junk data.m_ics tp
          { data.m_dynMain with Deltas := D }
          (List.replicate (u32 (data.m_dynMain.N_times * u32 (data.m_dynMain.N_s + 1))) 0))
        (List.replicate (u32 (data.m_dynMain.N_times * u32 (data.m_dynMain.N_s + 1))) 0) qv >>=
        fun q => pure (q, D) := by
  simp only [qoiRoutine, hT, hD, ok_bind]

theorem u32_rows (n_times n_s : Nat) (h : n_times * (n_s + 1) < 2 ^ 32) :
    u32 (n_times * u32 (n_s + 1)) = n_times * (n_s + 1) := by
  rcases Nat.eq_zero_or_pos n_times with h0 | hpos
  · subst h0; simp [u32]
  · have hle : n_s + 1 ≤ n_times * (n_s + 1) := Nat.le_mul_of_pos_left _ hpos
    rw [u32_of_lt (show n_s + 1 < 2 ^ 32 by omega), u32_of_lt h]

/-- C5: on a configuration whose vectors have the configured lengths and an output vector
with room for `N_times * (N_s + 1)` values, when the forward model returns the buffer
`rv`, `qoiRoutine` returns `qoiValues` with exactly its first `N_times * (N_s + 1)` entries
replaced by `rv`: entry `(N_s + 1) * i + j` is entry `j` of row `i` of the trajectory. -/
theorem qoiRoutine_success {σ : Type} (G : Integrator σ) (fuel : Nat) (junk : Nat → ℚ)
    (pv : List ℚ) (data : qoiRoutine_Data) (qv rv : List ℚ)
    (hT : data.m_times.length = data.m_dynMain.N_times)
    (hP : pv.length = data.m_dynMain.Params_factor * data.m_dynMain.N_s)
    (hD : data.m_dynMain.Deltas.length = data.m_dynMain.Params_factor * data.m_dynMain.N_s)
    (hP32 : data.m_dynMain.Params_factor * data.m_dynMain.N_s < 2 ^ 32)
    (h32 : data.m_dynMain.N_times * (data.m_dynMain.N_s + 1) < 2 ^ 32)
    (hQ : data.m_dynMain.N_times * (data.m_dynMain.N_s + 1) ≤ qv.length)
    (hF : zikaComputeModel G fuel junk data.m_ics data.m_times
      { data.m_dynMain with Deltas := pv }
      (List.replicate (data.m_dynMain.N_times * (data.m_dynMain.N_s + 1)) 0) = .ok rv) :
    qoiRoutine G fuel junk pv data qv =
        .ok (rv ++ qv.drop (data.m_dynMain.N_times * (data.m_dynMain.N_s + 1)), pv) ∧
      rv.length = data.m_dynMain.N_times * (data.m_dynMain.N_s + 1) ∧
      ∀ i, i < data.m_dynMain.N_times → ∀ j, j ≤ data.m_dynMain.N_s →
        (rv ++ qv.drop (data.m_dynMain.N_times * (data.m_dynMain.N_s + 1)))[
            (data.m_dynMain.N_s + 1) * i + j]? =
          some (rv.getD ((data.m_dynMain.N_s + 1) * i + j) 0) := by
  obtain ⟨h1, h2⟩ := copies_of_lengths _ _ _ _ pv _ hT hP hD hP32
  have hlen : rv.length = data.m_dynMain.N_times * (data.m_dynMain.N_s + 1) := by
    rw [zikaComputeModel_length G fuel junk _ _ _ _ rv hF]; simp
  refine ⟨?_, hlen, ?_⟩
  · rw [qoiRoutine_eq G fuel junk pv data qv _ _ h1 h2, u32_rows _ _ h32, hF]
    simp only [qoiFinish, qoiCopyTry]
    rw [copyLoop_eq rv qv rv.length (le_refl _) (by omega), List.take_length, hlen]
    rfl
  · intro i hi j hj
    have hlt : (data.m_dynMain.N_s + 1) * i + j < rv.length := by
      rw [hlen]
      calc (data.m_dynMain.N_s + 1) * i + j < (data.m_dynMain.N_s + 1) * i +
            (data.m_dynMain.N_s + 1) := by omega
        _ = (i + 1) * (data.m_dynMain.N_s + 1) := by ring
        _ ≤ data.m_dynMain.N_times * (data.m_dynMain.N_s + 1) :=
          Nat.mul_le_mul_right _ (by omega)
    rw [List.getElem?_append_left hlt, getElem?_eq_some_getD hlt]

/-- The parameter copy within both vectors. -/
theorem copyParams_prefix (n : Nat) (pv Deltas : List ℚ) (hP : pv.length = n)
    (hD : n ≤ Deltas.length) : copyParams n pv Deltas = .ok (pv ++ Deltas.drop n) := by
  rw [copyParams, copyLoop_eq pv Deltas n (by omega) hD, ← hP, List.take_length]

/-- C6: for `paramValues` of length `Params_factor * N_s` and a buffer at least that long,
the parameter copy leaves `Deltas[i] = paramValues[i]` for every `i < Params_factor * N_s`,
untransformed (the buffer becomes `paramValues` followed by its own entries from that
index on), and both `likelihoodRoutine` and `qoiRoutine` call the forward model on the
configuration with that buffer. -/
theorem routines_pass_params {σ : Type} (G : Integrator σ) (fuel : Nat) (junk : Nat → ℚ)
    (pv times tp ics csc : List ℚ) (var : ℚ) (dyn : dynamics_info) (qv : List ℚ)
    (hP : pv.length = dyn.Params_factor * dyn.N_s)
    (hD : dyn.Params_factor * dyn.N_s ≤ dyn.Deltas.length)
    (h32 : dyn.Params_factor * dyn.N_s < 2 ^ 32)
    (hT : copyTimes dyn.N_times times = .ok tp) :
    (∀ i, i < dyn.Params_factor * dyn.N_s →
        (pv ++ dyn.Deltas.drop (dyn.Params_factor * dyn.N_s))[i]? = some (pv.getD i 0)) ∧
      (likelihoodRoutine G fuel junk pv ⟨times, ics, csc, var, dyn⟩ =
        (catchInt (zikaComputeModel G fuel junk ics tp
            { dyn with Deltas := pv ++ dyn.Deltas.drop (dyn.Params_factor * dyn.N_s) }
            (List.replicate (u32 (dyn.N_times * u32 (dyn.N_s + 1))) 0) >>=
          fun rv => misfitLoop (u32 (dyn.N_s + 1)) dyn.N_times rv csc var)) >>=
          fun m => pure (-0.5 * m, pv ++ dyn.Deltas.drop (dyn.Params_factor * dyn.N_s))) ∧
      (qoiRoutine G fuel junk pv ⟨times, ics, dyn⟩ qv =
        qoiFinish (zikaComputeModel G fuel junk ics tp
            { dyn with Deltas := pv ++ dyn.Deltas.drop (dyn.Params_factor * dyn.N_s) }
            (List.replicate (u32 (dyn.N_times * u32 (dyn.N_s + 1))) 0))
          (List.replicate (u32 (dyn.N_times * u32 (dyn.N_s + 1))) 0) qv >>=
          fun q => pure (q, pv ++ dyn.Deltas.drop (dyn.Params_factor * dyn.N_s))) := by
  have hc : copyParams (u32 (dyn.Params_factor * dyn.N_s)) pv dyn.Deltas =
      .ok (pv ++ dyn.Deltas.drop (dyn.Params_factor * dyn.N_s)) := by
    rw [u32_of_lt h32]; exact copyParams_prefix _ pv dyn.Deltas hP hD
  refine ⟨fun i hi => ?_,
    likelihoodRoutine_eq G fuel junk pv ⟨times, ics, csc, var, dyn⟩ tp _ hT hc,
    qoiRoutine_eq G fuel junk pv ⟨times, ics, dyn⟩ qv tp _ hT hc⟩
  rw [List.getElem?_append_left (by omega), getElem?_eq_some_getD (by omega)]

/-! ## Evaluations at concrete inputs -/

theorem driftDriver_reaches : driftDriver.Reaches := by
  intro d t t1 y _
  exact ⟨rfl, le_refl t1, by simp [driftDriver]⟩

set_option maxRecDepth 100000 in
/-- C1, counterexample: with a driver that reports `GSL_FAILURE`, `likelihoodRoutine` ends
in the failed assertion of `zikaComputeModel` and returns no value; with an initial
cumulative incidence of `4e9 > 3e9` it returns the ordinary misfit value
`-31999999912000000061/4`, not `-0.5 * 1000000`. -/
theorem likelihoodRoutine_fault_counterexample :
    likelihoodRoutine failingDriver 1 (fun _ => 0) exParams exData = .error .assertFailed ∧
      likelihoodRoutine eulerDriver 1 (fun _ => 0) exParams exDataRunaway =
        .ok (-31999999912000000061 / 4, exParams) ∧
      (-31999999912000000061 / 4 : ℚ) ≠ -0.5 * 1000000 := by
  refine ⟨by with_unfolding_all rfl, by with_unfolding_all rfl, by norm_num⟩

set_option maxRecDepth 100000 in
/-- Witness of C1 (amended): with the driver that reports `GSL_FAILURE` the forward model
ends in the failed assertion and so does `likelihoodRoutine`. -/
theorem likelihoodRoutine_fault_witness :
    (exData.m_times.length = exData.m_dynMain.N_times ∧
        exParams.length = exData.m_dynMain.Params_factor * exData.m_dynMain.N_s) ∧
      likelihoodRoutine failingDriver 1 (fun _ => 0) exParams exData = .error .assertFailed ∧
      ∀ c, Fault.assertFailed ≠ .thrown c :=
  ⟨⟨rfl, rfl⟩,
    (likelihoodRoutine_fault failingDriver 1 (fun _ => 0) exParams exData .assertFailed
      rfl rfl rfl (by decide) (by with_unfolding_all rfl)).1,
    (likelihoodRoutine_fault failingDriver 1 (fun _ => 0) exParams exData .assertFailed
      rfl rfl rfl (by decide) (by with_unfolding_all rfl)).2.1⟩

theorem claimedLikelihood_two (traj csc : List ℚ) (var : ℚ) :
    claimedLikelihood traj csc var 2 =
      -0.5 * ((traj.getD 15 0 - csc.getD 0 0) ^ 2 / var +
        ((traj.getD 23 0 - csc.getD 1 0) ^ 2 / var + 0)) := by
  rfl

set_option maxRecDepth 100000 in
/-- C2, counterexample: for the two observation times of `exData` the code returns `-1/4`,
the residual of row 0 (`(5 - 6)^2 / 2`, the initial condition against the first observed
value) plus that of row 1 (`0`).  The sum of the claim pairs row 1 with the first observed
value and needs a row 2; whatever cumulative incidence `x` that row holds, its value is not
`-1/4`. -/
theorem likelihoodRoutine_misfit_counterexample :
    likelihoodRoutine eulerDriver 1 (fun _ => 0) exParams exData = .ok (-1 / 4, exParams) ∧
      ∀ x : ℚ, claimedLikelihood (exTrajectory ++ [0, 0, 0, 0, 0, 0, 0, x]) exData.m_csc
        exData.m_var 2 ≠ -1 / 4 := by
  constructor
  · with_unfolding_all rfl
  · intro x
    have h15 : (exTrajectory ++ [0, 0, 0, 0, 0, 0, 0, x]).getD 15 0 = 75 := rfl
    have h23 : (exTrajectory ++ [0, 0, 0, 0, 0, 0, 0, x]).getD 23 0 = x := rfl
    have hc0 : exData.m_csc.getD 0 0 = 6 := rfl
    have hc1 : exData.m_csc.getD 1 0 = 75 := rfl
    have hv : exData.m_var = 2 := rfl
    rw [claimedLikelihood_two, h15, h23, hc0, hc1, hv]
    intro hx
    nlinarith [sq_nonneg (x - 75)]

set_option maxRecDepth 100000 in
/-- Witness of C2 (amended) at `exData` with the Euler driver: the value is `-0.5` times
the sum over the rows 0 and 1 of `exTrajectory`. -/
theorem likelihoodRoutine_misfit_witness :
    (exData.m_dynMain.N_s = 7 ∧ exData.m_csc.length = exData.m_dynMain.N_times) ∧
      likelihoodRoutine eulerDriver 1 (fun _ => 0) exParams exData =
        .ok (-0.5 * ∑ j ∈ Finset.range exData.m_dynMain.N_times,
          (exTrajectory.getD (8 * j + 7) 0 - exData.m_csc.getD j 0) ^ 2 / exData.m_var,
          exParams) ∧
      (0 < exData.m_dynMain.N_times → exTrajectory.getD 7 0 = exData.m_ics.getD 7 0) :=
  ⟨⟨rfl, rfl⟩,
    likelihoodRoutine_misfit eulerDriver 1 (fun _ => 0) exParams exData exTrajectory
      rfl (by norm_num [exData]) rfl rfl rfl rfl rfl (by decide) (by decide)
      (by with_unfolding_all rfl)⟩

set_option maxRecDepth 100000 in
/-- C3, counterexample: for `timeStepCount = 2` time points and the initial condition
`exY` (`dim = 8`) the buffer of `2 * 8` entries that the callers allocate comes back as the
two rows of `exTrajectory`, not `(2 + 1) * 8` entries; in a buffer with room for three rows
the third row is never written. -/
theorem zikaComputeModel_rows_counterexample :
    zikaComputeModel eulerDriver 1 (fun _ => 0) exY [7, 14] exDynLinear
        (List.replicate (2 * 8) 0) = .ok exTrajectory ∧
      exTrajectory.length = 2 * 8 ∧ exTrajectory.length ≠ (2 + 1) * 8 ∧
      zikaComputeModel eulerDriver 1 (fun _ => 0) exY [7, 14] exDynLinear
        (List.replicate ((2 + 1) * 8) (-1)) = .ok (exTrajectory ++ List.replicate 8 (-1)) := by
  refine ⟨?_, rfl, by decide, ?_⟩
  · with_unfolding_all rfl
  · with_unfolding_all rfl

/-- Witness of C3 (amended) with the driver `driftDriver`, two time points and `exY`. -/
theorem zikaComputeModel_rows_witness :
    (driftDriver.Reaches ∧ 0 < [(7 : ℚ), 14].length) ∧
      ∃ rv, zikaComputeModel driftDriver 1 (fun _ => 0) exY [7, 14] exDynLinear
          (List.replicate 16 0) = .ok rv ∧
        rv.length = [(7 : ℚ), 14].length * exY.length ∧
        (∀ j, j < exY.length → rv[j]? = exY[j]?) ∧
        ∀ i, i < [(7 : ℚ), 14].length → ∀ j, j < exY.length →
          rv[exY.length * i + j]? =
            (stateAt driftDriver (zikaDriver driftDriver exDynLinear (fun _ => 0) exY.length)
              exY [7, 14] i).2.2[j]? :=
  ⟨⟨driftDriver_reaches, by decide⟩,
    zikaComputeModel_rows driftDriver driftDriver_reaches 1 (by decide) (fun _ => 0) exY
      [7, 14] exDynLinear (List.replicate 16 0) (by decide) (by decide) rfl⟩

set_option maxRecDepth 100000 in
/-- Witness of C4 with the Euler driver, two time points and `exY`. -/
theorem zikaComputeModel_row_zero_witness :
    zikaComputeModel eulerDriver 1 (fun _ => 0) exY [7, 14] exDynLinear
        (List.replicate 16 0) = .ok exTrajectory ∧
      ∀ j, j < exY.length → exTrajectory[j]? = exY[j]? :=
  ⟨by with_unfolding_all rfl,
    zikaComputeModel_row_zero eulerDriver 1 (fun _ => 0) exY [7, 14] exDynLinear
      (List.replicate 16 0) exTrajectory (by decide) (by decide) (by with_unfolding_all rfl)⟩

set_option maxRecDepth 100000 in
/-- Witness of C5 at `exDataQoi` with the Euler driver and an output vector of 18 entries:
the first 16 become the trajectory, the last two stay. -/
theorem qoiRoutine_success_witness :
    (exDataQoi.m_times.length = exDataQoi.m_dynMain.N_times ∧
        exDataQoi.m_dynMain.N_times * (exDataQoi.m_dynMain.N_s + 1) ≤
          (List.replicate 18 (-1 : ℚ)).length) ∧
      qoiRoutine eulerDriver 1 (fun _ => 0) exParams exDataQoi (List.replicate 18 (-1)) =
        .ok (exTrajectory ++ (List.replicate 18 (-1)).drop
          (exDataQoi.m_dynMain.N_times * (exDataQoi.m_dynMain.N_s + 1)), exParams) :=
  ⟨⟨rfl, by decide⟩,
    (qoiRoutine_success eulerDriver 1 (fun _ => 0) exParams exDataQoi (List.replicate 18 (-1))
      exTrajectory rfl rfl rfl (by decide) (by decide) (by decide)
      (by with_unfolding_all rfl)).1⟩

/-- Witness of C6 at the configuration `exDynZero` and the parameters `exParams`. -/
theorem routines_pass_params_witness :
    (exParams.length = exDynZero.Params_factor * exDynZero.N_s ∧
        exDynZero.Params_factor * exDynZero.N_s ≤ exDynZero.Deltas.length) ∧
      ∀ i, i < exDynZero.Params_factor * exDynZero.N_s →
        (exParams ++ exDynZero.Deltas.drop (exDynZero.Params_factor * exDynZero.N_s))[i]? =
          some (exParams.getD i 0) :=
  ⟨⟨rfl, by decide⟩,
    (routines_pass_params eulerDriver 1 (fun _ => 0) exParams [7, 14] [7, 14] exY [6, 75] 2
      exDynZero (List.replicate 16 0) rfl (by decide) (by decide) (copyTimes_eq [7, 14])).1⟩

set_option maxRecDepth 100000 in
/-- C7, counterexample: a parameter vector of 15 entries against the buffer of 14 entries
of `exData`: `likelihoodRoutine` reports nothing, overwrites the buffer (14 zeros before
the call) with the first 14 entries and returns the value `-1/4` of the forward model. -/
theorem likelihoodRoutine_length_counterexample :
    (exParams ++ [9]).length ≠ exData.m_dynMain.Deltas.length ∧
      exData.m_dynMain.Deltas = List.replicate 14 0 ∧
      likelihoodRoutine eulerDriver 1 (fun _ => 0) (exParams ++ [9]) exData =
        .ok (-1 / 4, exParams) := by
  refine ⟨by decide, rfl, ?_⟩
  with_unfolding_all rfl

/-- C7 (amended) at the 15-entry vector `exParams ++ [9]`, which is cut to `exParams`. -/
theorem likelihoodRoutine_ignores_extra_params_witness :
    (exParams ++ [9]).take (u32 (exData.m_dynMain.Params_factor * exData.m_dynMain.N_s)) =
        exParams ∧
      likelihoodRoutine eulerDriver 1 (fun _ => 0) (exParams ++ [9]) exData =
        likelihoodRoutine eulerDriver 1 (fun _ => 0)
          ((exParams ++ [9]).take (u32 (exData.m_dynMain.Params_factor * exData.m_dynMain.N_s)))
          exData :=
  ⟨by decide,
    likelihoodRoutine_ignores_extra_params eulerDriver 1 (fun _ => 0) (exParams ++ [9]) exData⟩

/-! ## Further properties of `zikaFunction` -/

/-- For seven species the derivative of the cumulative incidence is returned as the
structural incidence flow, whatever the formulation. -/
theorem zikaFunction_channel (dyn : dynamics_info) (junk : Nat → ℚ) (t : ℚ)
    (Y dYdt : List ℚ) (hN : dyn.N_s = 7) (hY : Y.length = 8) (hd : dYdt.length = 8) :
    ∃ dY, zikaFunction dyn junk t Y dYdt = .ok (GSL_SUCCESS, dY) ∧ dY.length = 8 ∧
      dY[7]? = some (1 / 5.9 * max (Y.getD 1 0) 0) := by
  obtain ⟨d1, h1, hl, hv⟩ := inadequacy_frame dyn.Inad_type 7 dyn.Params_factor
    (rdDelta dyn.Deltas junk) ((List.range 8).map (pop Y))
    ((List.range 8).map (structural (pop Y))) (by simp) (by simp)
  refine ⟨d1, ?_, by simpa using hl, ?_⟩
  · rw [zikaFunction_eq dyn junk t Y dYdt hN hY hd, h1]; rfl
  · rw [hv 7 (le_refl 7), range_eight]
    simp only [List.map, List.getElem?_cons_succ, List.getElem?_cons_zero, structural, pop]

/-- With the formulation NONE the loop `dYdt[i] += 0.` leaves the structural derivatives. -/
theorem zikaFunction_none (dyn : dynamics_info) (junk : Nat → ℚ) (t : ℚ) (Y dYdt : List ℚ)
    (hN : dyn.N_s = 7) (hI : dyn.Inad_type = 0) (hY : Y.length = 8) (hd : dYdt.length = 8) :
    ∃ dY, zikaFunction dyn junk t Y dYdt = .ok (GSL_SUCCESS, dY) ∧
      ∀ i, i < 7 → dY.getD i 0 = structural (pop Y) i := by
  obtain ⟨d1, h1, _, hlo, _⟩ := forLoop_pointwise inadBody0 (fun _ v => v + 0) 8 7
    ((List.range 8).map (structural (pop Y))) (by simp) (by decide)
    (fun k s hk hs => inadBody0_eq k s (by omega))
  refine ⟨d1, ?_, ?_⟩
  · rw [zikaFunction_eq dyn junk t Y dYdt hN hY hd, hI]
    simp only [inadequacy, if_pos, h1]
    rfl
  · intro i hi
    simp only [List.getD_eq_getElem?_getD, hlo i hi, Option.getD_some]
    rw [← List.getD_eq_getElem?_getD, getD_map_range _ (show i < 8 by omega), add_zero]

/-- C11: with the formulation NONE (`Inad_type = 0`, `N_s = 7`), for every state `Y` the
four human-compartment derivatives returned by `zikaFunction` (which returns
`GSL_SUCCESS` and eight derivatives) sum to zero:
`dYdt[0] + dYdt[1] + dYdt[2] + dYdt[3] = 0`. -/
theorem zikaFunction_none_human_sum (dyn : dynamics_info) (junk : Nat → ℚ) (t : ℚ)
    (Y dYdt : List ℚ) (hN : dyn.N_s = 7) (hI : dyn.Inad_type = 0) (hY : Y.length = 8)
    (hd : dYdt.length = 8) :
    ∃ dY, zikaFunction dyn junk t Y dYdt = .ok (GSL_SUCCESS, dY) ∧ dY.length = 8 ∧
      dY.getD 0 0 + dY.getD 1 0 + dY.getD 2 0 + dY.getD 3 0 = 0 := by
  obtain ⟨dY, h, hv⟩ := zikaFunction_none dyn junk t Y dYdt hN hI hY hd
  obtain ⟨dY1, h1, hl, _⟩ := zikaFunction_channel dyn junk t Y dYdt hN hY hd
  have hdY : dY1 = dY := by
    rw [h] at h1
    injection h1 with h1
    injection h1 with _ h1
    exact h1.symm
  refine ⟨dY, h, hdY ▸ hl, ?_⟩
  rw [hv 0 (by decide), hv 1 (by decide), hv 2 (by decide), hv 3 (by decide)]
  simp only [structural]
  ring

/-- C13: for `N_s = 7`, every state `Y` (negative entries included), every formulation
and every discrepancy vector, `zikaFunction` returns a derivative of the cumulative
incidence that is non-negative: `dYdt[7] ≥ 0`. -/
theorem zikaFunction_incidence_nonneg (dyn : dynamics_info) (junk : Nat → ℚ) (t : ℚ)
    (Y dYdt : List ℚ) (hN : dyn.N_s = 7) (hY : Y.length = 8) (hd : dYdt.length = 8) :
    ∃ dY v, zikaFunction dyn junk t Y dYdt = .ok (GSL_SUCCESS, dY) ∧ dY[7]? = some v ∧
      0 ≤ v := by
  obtain ⟨dY, h, _, hv⟩ := zikaFunction_channel dyn junk t Y dYdt hN hY hd
  refine ⟨dY, _, h, hv, ?_⟩
  exact mul_nonneg (by norm_num) (le_max_right _ _)

theorem rd_some {a : List ℚ} {i : Nat} {v : ℚ} (h : a[i]? = some v) : rd a i = .ok v := by
  simp only [rd, h]

theorem rd_none {a : List ℚ} {i : Nat} (h : a[i]? = none) : rd a i = .error .outOfRange := by
  simp only [rd, h]

theorem wr_of_not_lt {a : List ℚ} {i : Nat} (v : ℚ) (h : ¬ i < a.length) :
    wr a i v = .error .outOfRange := by
  simp only [wr, if_neg h]

/-- The clamping loop gives the same populations for `Y` and for `clamp Y`. -/
theorem clampPops_clamp (n_s : Nat) (Y : List ℚ) : clampPops n_s (clamp Y) = clampPops n_s Y := by
  unfold clampPops
  apply forLoop_congr
  intro k pops _ _
  cases hq : Y[k]? with
  | none =>
    have hc : (clamp Y)[k]? = none := by simp only [clamp, List.getElem?_map, hq, Option.map_none']
    simp only [rd_none hq, rd_none hc]
  | some y =>
    have hc : (clamp Y)[k]? = some (if y ≤ 0 then 0 else y) := by
      simp only [clamp, List.getElem?_map, hq, Option.map_some']
    simp only [rd_some hq, rd_some hc, ok_bind]
    by_cases hk : k < pops.length
    · by_cases hy : y ≤ 0
      · have h1 : k < (pops.set k y).length := by simpa using hk
        have h0 : k < (pops.set k 0).length := by simpa using hk
        simp only [if_pos hy, wr_of_lt _ hk, ok_bind, rd_of_lt h1, rd_of_lt h0,
          getD_set_self hk, le_refl, if_true, wr_of_lt _ h1, wr_of_lt _ h0, List.set_set]
      · simp only [if_neg hy]
    · simp only [wr_of_not_lt _ hk]

theorem rd_clamp_bind {β : Type} (Y : List ℚ) (i : Nat) (r : Res β) :
    (rd (clamp Y) i >>= fun _ => r) = (rd Y i >>= fun _ => r) := by
  cases hq : Y[i]? with
  | none =>
    have hc : (clamp Y)[i]? = none := by simp only [clamp, List.getElem?_map, hq, Option.map_none']
    rw [rd_none hq, rd_none hc]
  | some y =>
    have hc : (clamp Y)[i]? = some (if y ≤ 0 then 0 else y) := by
      simp only [clamp, List.getElem?_map, hq, Option.map_some']
    rw [rd_some hq, rd_some hc]
    rfl

/-- C15: for every configuration (formulation, discrepancy vector) and every state `Y`,
`zikaFunction` returns for `Y` what it returns for `clamp Y`, derivative and status: the
state enters only through its values clamped at zero. -/
theorem zikaFunction_clamp (dyn : dynamics_info) (junk : Nat → ℚ) (t : ℚ) (Y dYdt : List ℚ) :
    zikaFunction dyn junk t (clamp Y) dYdt = zikaFunction dyn junk t Y dYdt := by
  simp only [zikaFunction, clampPops_clamp, ite_self]
  cases clampPops dyn.N_s Y with
  | error e => rfl
  | ok pops =>
    simp only [ok_bind]
    cases seirSei pops dYdt with
    | error e => rfl
    | ok d =>
      simp only [ok_bind]
      cases inadequacy dyn.Inad_type dyn.N_s dyn.Params_factor (rdDelta dyn.Deltas junk) pops d with
      | error e => rfl
      | ok d1 =>
        simp only [ok_bind]
        exact rd_clamp_bind Y 7 _

theorem error_bind {α β : Type} (e : Fault) (f : α → Res β) :
    ((Except.error e : Res α) >>= f) = .error e := rfl

/-- When the clamping loop returns, `pops` has its `n_s + 1` entries. -/
theorem clampPops_length (n_s : Nat) (Y pops : List ℚ) (h : clampPops n_s Y = .ok pops) :
    pops.length = u32 (n_s + 1) := by
  have := forLoop_inv_of_ok
    (fun i pops => do
      let pops ← wr pops i (← rd Y i)
      if (← rd pops i) ≤ 0 then wr pops i 0 else pure pops)
    (fun _ (s : List ℚ) => s.length = u32 (n_s + 1))
    (u32 (n_s + 1)) 0 (List.replicate (u32 (n_s + 1)) 0) pops (by simp)
    (by
      intro k s s1 _ _ hl hb
      obtain ⟨y, _, hb⟩ := bind_ok hb
      obtain ⟨s2, hs2, hb⟩ := bind_ok hb
      obtain ⟨_, rfl⟩ := wr_ok hs2
      obtain ⟨v, _, hb⟩ := bind_ok hb
      show s1.length = u32 (n_s + 1)
      split_ifs at hb
      · obtain ⟨_, rfl⟩ := wr_ok hb
        simpa using hl
      · cases hb
        simpa using hl)
    h
  exact this

theorem rdDelta_replicate_zero (n k : Nat) (junk : Nat → ℚ) (h : k < n) :
    rdDelta (List.replicate n 0) junk k = 0 := by
  simp [rdDelta, List.getElem?_replicate, h]

/-- With all fourteen parameters zero the LINEAR loop body is the NONE loop body. -/
theorem inadBody1_zero (junk : Nat → ℚ) (pops : List ℚ) (hp : 7 ≤ pops.length) (k : Nat)
    (hk : k < 7) (s : List ℚ) :
    inadBody0 k s = inadBody1 2 (rdDelta (List.replicate 14 0) junk) pops k s := by
  have e0 : u32 (2 * k + 0) = 2 * k := u32_of_lt (by omega)
  have e1 : u32 (2 * k + 1) = 2 * k + 1 := u32_of_lt (by omega)
  have z0 := rdDelta_replicate_zero 14 (2 * k) junk (by omega)
  have z1 := rdDelta_replicate_zero 14 (2 * k + 1) junk (by omega)
  cases hq : s[k]? with
  | none => simp only [inadBody0, inadBody1, rd_none hq, error_bind]
  | some v =>
    simp only [inadBody0, inadBody1, rd_some hq, rd_of_lt (show k < pops.length by omega),
      ok_bind]
    rw [e0, e1, z0, z1, zero_mul, zero_mul]
    simp only [add_zero]

/-- The right-hand sides of the formulation NONE and of the formulation LINEAR with all
fourteen parameters zero are the same function. -/
theorem zikaFunction_none_eq_linear_zero (dyn0 dyn1 : dynamics_info) (junk : Nat → ℚ)
    (h0N : dyn0.N_s = 7) (h0I : dyn0.Inad_type = 0) (h1N : dyn1.N_s = 7)
    (h1I : dyn1.Inad_type = 1) (h1P : dyn1.Params_factor = 2)
    (h1D : dyn1.Deltas = List.replicate 14 0) (t : ℚ) (Y dYdt : List ℚ) :
    zikaFunction dyn0 junk t Y dYdt = zikaFunction dyn1 junk t Y dYdt := by
  simp only [zikaFunction, h0N, h0I, h1N, h1I, h1P, h1D]
  cases hc : clampPops 7 Y with
  | error e => simp only [error_bind]
  | ok pops =>
    have hl : pops.length = 8 := by
      rw [clampPops_length 7 Y pops hc]; decide
    simp only [ok_bind]
    cases seirSei pops dYdt with
    | error e => simp only [error_bind]
    | ok d =>
      have hin : inadequacy 0 7 dyn0.Params_factor (rdDelta dyn0.Deltas junk) pops d =
          inadequacy 1 7 2 (rdDelta (List.replicate 14 0) junk) pops d := by
        simp only [inadequacy, if_pos, if_neg, one_ne_zero]
        exact forLoop_congr _ _ 7 0 d
          (fun k s _ hk => inadBody1_zero junk pops (by omega) k (by omega) s)
      simp only [ok_bind, hin]

/-- C12: the formulation NONE and the formulation LINEAR (`Params_factor = 2`) with all 14
discrepancy parameters zero give the same right-hand side `zikaFunction`, for every time,
state and derivative array, and hence `zikaComputeModel` returns the same trajectory
under the two configurations for the same integrator, initial condition and times. -/
theorem zikaComputeModel_none_eq_linear_zero {σ : Type} (G : Integrator σ) (fuel : Nat)
    (junk : Nat → ℚ) (dyn0 dyn1 : dynamics_info)
    (h0N : dyn0.N_s = 7) (h0I : dyn0.Inad_type = 0) (h1N : dyn1.N_s = 7)
    (h1I : dyn1.Inad_type = 1) (h1P : dyn1.Params_factor = 2)
    (h1D : dyn1.Deltas = List.replicate 14 0) :
    (∀ (t : ℚ) (Y dYdt : List ℚ),
        zikaFunction dyn0 junk t Y dYdt = zikaFunction dyn1 junk t Y dYdt) ∧
      ∀ ics tp rv0 : List ℚ, zikaComputeModel G fuel junk ics tp dyn0 rv0 =
        zikaComputeModel G fuel junk ics tp dyn1 rv0 := by
  have hf : zikaFunction dyn0 junk = zikaFunction dyn1 junk := by
    funext t Y dYdt
    exact zikaFunction_none_eq_linear_zero dyn0 dyn1 junk h0N h0I h1N h1I h1P h1D t Y dYdt
  have hd : ∀ dim, zikaDriver G dyn0 junk dim = zikaDriver G dyn1 junk dim := by
    intro dim
    unfold zikaDriver
    rw [hf]
  refine ⟨fun t Y dYdt => by rw [hf], fun ics tp rv0 => ?_⟩
  simp only [zikaComputeModel, hd]

/-! ## The `catch` branch of `qoiRoutine` -/

/-- C17: when the forward model raises an `int` exception inside `qoiRoutine`, the
`catch` block performs on the buffer `returnValues` the very copy of the `try` block, so
the outcome is that of the success branch on the same buffer; with room for the buffer in
`qoiValues` that outcome is a value and not a failure, and it has
`qoiValues[j] = returnValues[j]` for every `j < returnValues.size()`. -/
theorem qoiFinish_catch_eq_try (code : Int) (buffer qv : List ℚ)
    (h : buffer.length ≤ qv.length) :
    qoiFinish (.error (.thrown code)) buffer qv = qoiFinish (.ok buffer) buffer qv ∧
      qoiFinish (.error (.thrown code)) buffer qv = .ok (buffer ++ qv.drop buffer.length) ∧
      ∀ j, j < buffer.length → (buffer ++ qv.drop buffer.length)[j]? = buffer[j]? := by
  refine ⟨rfl, ?_, fun j hj => List.getElem?_append_left hj⟩
  simp only [qoiFinish, qoiCopyCatch]
  rw [copyLoop_eq buffer qv buffer.length (le_refl _) h, List.take_length]

/-- C17, witness: a buffer of two entries and `qoiValues` of three. -/
theorem qoiFinish_catch_eq_try_witness :
    ([1, 2] : List ℚ).length ≤ ([0, 0, 9] : List ℚ).length ∧
      qoiFinish (.error (.thrown 20)) [1, 2] [0, 0, 9] = qoiFinish (.ok [1, 2]) [1, 2] [0, 0, 9] ∧
      qoiFinish (.error (.thrown 20)) [1, 2] [0, 0, 9] = .ok [1, 2, 9] :=
  ⟨by decide, (qoiFinish_catch_eq_try 20 [1, 2] [0, 0, 9] (by decide)).1,
    (qoiFinish_catch_eq_try 20 [1, 2] [0, 0, 9] (by decide)).2.1⟩

/-! ## The time points of `zikaComputeModel` -/

/-- One pass of the time loop for a target that does not lie ahead: no call of the driver,
the current state is copied into row `i`. -/
theorem timeStep_no_step {σ : Type} (G : Integrator σ) (fuel dim : Nat) (tp : List ℚ)
    (i : Nat) (d : σ) (t : ℚ) (Y rv : List ℚ) (target : ℚ) (hi : tp[i]? = some target)
    (ht : target ≤ t) :
    timeStep G fuel dim tp i (d, t, Y, rv) =
      (saveRow dim i Y rv).map (fun rv1 => (d, t, Y, rv1)) := by
  simp only [timeStep, rd_some hi, ok_bind,
    integrateUntil_of_not_lt G target fuel d t Y (not_lt.mpr ht)]
  cases saveRow dim i Y rv <;> rfl

/-- The forward model never reads `timePoints[0]`. -/
theorem zikaComputeModel_first_time {σ : Type} (G : Integrator σ) (fuel : Nat)
    (junk : Nat → ℚ) (ics : List ℚ) (dyn : dynamics_info) (rv0 : List ℚ) (a b : ℚ)
    (rest : List ℚ) :
    zikaComputeModel G fuel junk ics (a :: rest) dyn rv0 =
      zikaComputeModel G fuel junk ics (b :: rest) dyn rv0 := by
  have hstep : ∀ s, forLoop (timeStep G fuel (u32 ics.length) (a :: rest))
      ((a :: rest).length - 1) 1 s =
      forLoop (timeStep G fuel (u32 ics.length) (b :: rest)) ((b :: rest).length - 1) 1 s := by
    intro s
    simp only [List.length_cons]
    apply forLoop_congr
    intro k s hk _
    obtain ⟨n, rfl⟩ : ∃ n, k = n + 1 := ⟨k - 1, by omega⟩
    simp only [timeStep, rd_cons_succ]
  simp only [zikaComputeModel, hstep]

/-- One pass of the time loop for a target that does not lie ahead, on a buffer with room
for row `i`: driver, time and state stay as they are and row `i` of `returnValues`
receives the state, the other rows staying as they were. -/
theorem timeStep_no_step_row {σ : Type} (G : Integrator σ) (fuel dim : Nat) (tp : List ℚ)
    (i : Nat) (d : σ) (t : ℚ) (Y rv : List ℚ) (target : ℚ) (hi : tp[i]? = some target)
    (ht : target ≤ t) (hY : Y.length = dim) (hr : dim * i + dim ≤ rv.length)
    (h32 : dim * i + dim ≤ 2 ^ 32) :
    ∃ rv1, timeStep G fuel dim tp i (d, t, Y, rv) = .ok (d, t, Y, rv1) ∧
      rv1.length = rv.length ∧ (∀ j, j < dim → rv1[dim * i + j]? = Y[j]?) ∧
      ∀ k, (k < dim * i ∨ dim * i + dim ≤ k) → rv1[k]? = rv[k]? := by
  obtain ⟨rv1, h1, hl, hrow, hfr⟩ := saveRow_eq dim i Y rv hY hr h32
  refine ⟨rv1, ?_, hl, hrow, hfr⟩
  rw [timeStep_no_step G fuel dim tp i d t Y rv target hi ht, h1]
  rfl

/-- The `while` loop for a target that lies ahead, when the first call of the driver
reports `GSL_SUCCESS` and reaches the target: that one call and no other. -/
theorem integrateUntil_one_call {σ : Type} (G : Integrator σ) (finalTime : ℚ) (fuel : Nat)
    (hf : 0 < fuel) (d d1 : σ) (t T1 : ℚ) (Y Y1 : List ℚ) (h : t < finalTime)
    (hG : G.apply d t finalTime Y = (GSL_SUCCESS, d1, T1, Y1)) (hT : finalTime ≤ T1) :
    integrateUntil G finalTime fuel d t Y = .ok (d1, T1, Y1) := by
  obtain ⟨n, rfl⟩ : ∃ n, fuel = n + 1 := ⟨fuel - 1, by omega⟩
  simp only [integrateUntil, if_pos h, hG, ne_eq, not_true_eq_false, if_false]
  rw [integrateUntil_of_not_lt G finalTime n _ _ _ (not_lt.mpr hT)]

/-- C19: `zikaComputeModel` does not depend on `timePoints[0]`: two time sequences that
differ only in entry 0 give the same outcome.  The integration starts from the initial
condition at the fixed time `7.0` and only `timePoints[1..]` are targets: when none of them
lies beyond `7` no step of the driver is taken (whatever the driver) and every row is the
initial condition, and a single target beyond `7` is integrated by the driver called at
the time `7` on the initial condition, its result being row 1.  In every pass of the time
loop a target `timePoints[i]` that is not beyond the current time `t` takes no step of the
driver, and row `i` of `returnValues` receives the current state unchanged, the other rows
staying as they were. -/
theorem zikaComputeModel_time_points {σ : Type} (G : Integrator σ) (fuel : Nat)
    (hf : 0 < fuel) (junk : Nat → ℚ) (ics : List ℚ) (dyn : dynamics_info) (rv0 : List ℚ)
    (a b : ℚ) (rest : List ℚ) (h32 : (rest.length + 1) * ics.length < 2 ^ 32)
    (hrv : rv0.length = (rest.length + 1) * ics.length) :
    zikaComputeModel G fuel junk ics (a :: rest) dyn rv0 =
        zikaComputeModel G fuel junk ics (b :: rest) dyn rv0 ∧
      ((∀ x ∈ rest, x ≤ 7) →
        ∃ rv, zikaComputeModel G fuel junk ics (a :: rest) dyn rv0 = .ok rv ∧
          rv.length = rv0.length ∧
          ∀ i, i ≤ rest.length → ∀ j, j < ics.length →
            rv[ics.length * i + j]? = ics[j]?) ∧
      (∀ (t1 : ℚ) (d1 : σ) (T1 : ℚ) (Y1 : List ℚ), rest = [t1] → 7 < t1 →
        G.apply (zikaDriver G dyn junk (u32 ics.length)) 7 t1 ics = (GSL_SUCCESS, d1, T1, Y1) →
        t1 ≤ T1 → Y1.length = ics.length →
        ∃ rv, zikaComputeModel G fuel junk ics (a :: rest) dyn rv0 = .ok rv ∧
          rv.length = rv0.length ∧ (∀ j, j < ics.length → rv[j]? = ics[j]?) ∧
          ∀ j, j < ics.length → rv[ics.length + j]? = Y1[j]?) ∧
      ∀ (dim : Nat) (tp : List ℚ) (i : Nat) (d : σ) (t : ℚ) (Y rv : List ℚ) (target : ℚ),
        tp[i]? = some target → target ≤ t → Y.length = dim → dim * i + dim ≤ rv.length →
        dim * i + dim ≤ 2 ^ 32 →
        integrateUntil G target fuel d t Y = .ok (d, t, Y) ∧
          ∃ rv1, timeStep G fuel dim tp i (d, t, Y, rv) = .ok (d, t, Y, rv1) ∧
            rv1.length = rv.length ∧ (∀ j, j < dim → rv1[dim * i + j]? = Y[j]?) ∧
            ∀ k, (k < dim * i ∨ dim * i + dim ≤ k) → rv1[k]? = rv[k]? := by
  have h7 : (7.0 : ℚ) = 7 := by norm_num
  have hmul : ∀ m, m ≤ rest.length →
      ics.length * m + ics.length ≤ (rest.length + 1) * ics.length := by
    intro m hm
    calc ics.length * m + ics.length = (m + 1) * ics.length := by ring
      _ ≤ (rest.length + 1) * ics.length := Nat.mul_le_mul_right _ (by omega)
  have hlen : ics.length ≤ (rest.length + 1) * ics.length := by
    have := hmul 0 (Nat.zero_le _)
    omega
  have hu : u32 ics.length = ics.length := u32_of_lt (by omega)
  obtain ⟨rv1, hi1, hl1, hlo1, _⟩ := initLoop_eq ics rv0 (by omega)
  refine ⟨zikaComputeModel_first_time G fuel junk ics dyn rv0 a b rest, ?_, ?_, ?_⟩
  · intro hle
    obtain ⟨s, hs, _, _, _, hsl, hrows⟩ := forLoop_inv
      (timeStep G fuel ics.length (a :: rest))
      (fun k (s : σ × ℚ × List ℚ × List ℚ) =>
        s.1 = zikaDriver G dyn junk ics.length ∧ s.2.1 = 7.0 ∧ s.2.2.1 = ics ∧
          s.2.2.2.length = rv0.length ∧
          ∀ i, i < k → ∀ j, j < ics.length → s.2.2.2[ics.length * i + j]? = ics[j]?)
      rest.length 1 (zikaDriver G dyn junk ics.length, 7.0, ics, rv1)
      ⟨rfl, rfl, rfl, hl1, by
        intro i hi j hj
        obtain rfl : i = 0 := by omega
        rw [Nat.mul_zero, Nat.zero_add]
        exact hlo1 j hj⟩
      (by
        intro k s hk1 hk2 hP
        obtain ⟨d, t, Y, rv⟩ := s
        obtain ⟨hd, ht, hY, hl, hrows⟩ := hP
        simp only at hd ht hY hl hrows
        subst hd ht hY
        obtain ⟨n, rfl⟩ : ∃ n, k = n + 1 := ⟨k - 1, by omega⟩
        have hn : n < rest.length := by omega
        have htp : (a :: rest)[n + 1]? = some (rest[n]) := by
          rw [List.getElem?_cons_succ, List.getElem?_eq_getElem hn]
        have hle7 : rest[n] ≤ (7.0 : ℚ) := by
          rw [h7]
          exact hle _ (List.getElem_mem hn)
        obtain ⟨rv2, h2, hl2, hrow2, hfr2⟩ := timeStep_no_step_row G fuel Y.length
          (a :: rest) (n + 1) (zikaDriver G dyn junk Y.length) 7.0 Y rv (rest[n]) htp hle7 rfl
          (by have := hmul (n + 1) (by omega); omega)
          (by have := hmul (n + 1) (by omega); omega)
        refine ⟨_, h2, rfl, rfl, rfl, by rw [hl2]; exact hl, ?_⟩
        intro i hi j hj
        show rv2[Y.length * i + j]? = Y[j]?
        by_cases hin : i = n + 1
        · subst hin
          exact hrow2 j hj
        · have hlt : Y.length * i + j < Y.length * (n + 1) := by
            calc Y.length * i + j < Y.length * i + Y.length := by omega
              _ = Y.length * (i + 1) := by ring
              _ ≤ Y.length * (n + 1) := Nat.mul_le_mul_left _ (by omega)
          rw [hfr2 _ (Or.inl hlt)]
          exact hrows i (by omega) j hj)
    refine ⟨s.2.2.2, ?_, hsl, fun i hi j hj => hrows i (by omega) j hj⟩
    simp only [zikaComputeModel, hu, hi1, ok_bind, List.length_cons, Nat.add_sub_cancel, hs]
    rfl
  · intro t1 d1 T1 Y1 hr ht hG hT hY
    subst hr
    rw [hu] at hG
    have hr1 : ics.length * 1 + ics.length ≤ rv1.length := by
      have := hmul 1 (le_refl 1)
      simp only [List.length_cons, List.length_nil] at hrv this
      omega
    have hb1 : ics.length * 1 + ics.length ≤ 2 ^ 32 := by
      have := hmul 1 (le_refl 1)
      simp only [List.length_cons, List.length_nil] at h32 this
      omega
    obtain ⟨rv2, h2, hl2, hrow2, hfr2⟩ := saveRow_eq ics.length 1 Y1 rv1 hY hr1 hb1
    have hint : integrateUntil G t1 fuel (zikaDriver G dyn junk ics.length) 7.0 ics =
        .ok (d1, T1, Y1) :=
      integrateUntil_one_call G t1 fuel hf _ d1 7.0 T1 ics Y1 (by rw [h7]; exact ht)
        (by rw [h7]; exact hG) hT
    have hstep : timeStep G fuel ics.length [a, t1] 1
        (zikaDriver G dyn junk ics.length, 7.0, ics, rv1) = .ok (d1, T1, Y1, rv2) := by
      simp only [timeStep, rd_cons_succ, rd_cons_zero, ok_bind, hint, h2]
      rfl
    refine ⟨rv2, ?_, by omega, ?_, ?_⟩
    · simp only [zikaComputeModel, hu, hi1, ok_bind, List.length_cons, List.length_nil,
        Nat.zero_add, Nat.add_sub_cancel, forLoop, hstep]
      rfl
    · intro j hj
      rw [hfr2 j (Or.inl (by omega))]
      exact hlo1 j hj
    · intro j hj
      have := hrow2 j hj
      rw [Nat.mul_one] at this
      exact this
  · intro dim tp i d t Y rv target hi ht hY hr h32
    exact ⟨integrateUntil_of_not_lt G target fuel d t Y (not_lt.mpr ht),
      timeStep_no_step_row G fuel dim tp i d t Y rv target hi ht hY hr h32⟩

set_option maxRecDepth 100000 in
/-- C19, witness: on the driver `failingDriver`, every step of which would fail, the time
sequences `[7, 3, 7]` and `[0, 3, 7]` give the same outcome, a trajectory whose three rows
are the initial condition `exY`; on the driver `driftDriver`, which adds the elapsed time
to every entry, the single target `14` is reached by one call at the time `7` on `exY`,
so row 1 is `exY` plus `7`. -/
theorem zikaComputeModel_time_points_witness :
    (0 < 1 ∧ (([3, 7] : List ℚ).length + 1) * exY.length < 2 ^ 32 ∧
        (List.replicate 24 (0 : ℚ)).length = (([3, 7] : List ℚ).length + 1) * exY.length) ∧
      zikaComputeModel failingDriver 1 (fun _ => 0) exY (7 :: [3, 7]) exDynZero
          (List.replicate 24 0) =
        zikaComputeModel failingDriver 1 (fun _ => 0) exY (0 :: [3, 7]) exDynZero
          (List.replicate 24 0) ∧
      (∃ rv, zikaComputeModel failingDriver 1 (fun _ => 0) exY (7 :: [3, 7]) exDynZero
          (List.replicate 24 0) = .ok rv ∧
        rv.length = (List.replicate 24 (0 : ℚ)).length ∧
        ∀ i, i ≤ ([3, 7] : List ℚ).length → ∀ j, j < exY.length →
          rv[exY.length * i + j]? = exY[j]?) ∧
      (∃ rv, zikaComputeModel driftDriver 1 (fun _ => 0) exY (7 :: [14]) exDynZero
          (List.replicate 16 0) = .ok rv ∧
        rv.length = (List.replicate 16 (0 : ℚ)).length ∧
        (∀ j, j < exY.length → rv[j]? = exY[j]?) ∧
        ∀ j, j < exY.length →
          rv[exY.length + j]? = (exY.map (fun v => v + (14 - 7)))[j]?) ∧
      zikaComputeModel failingDriver 1 (fun _ => 0) exY [0, 3, 7] exDynZero
          (List.replicate 24 0) = .ok (exY ++ exY ++ exY) ∧
      zikaComputeModel driftDriver 1 (fun _ => 0) exY [7, 14] exDynZero
          (List.replicate 16 0) = .ok (exY ++ [107, 66, 86, 7, 8, 7, 7, 12]) :=
  ⟨⟨by decide, by decide, rfl⟩,
    (zikaComputeModel_time_points failingDriver 1 (by decide) (fun _ => 0) exY exDynZero
      (List.replicate 24 0) 7 0 [3, 7] (by decide) rfl).1,
    (zikaComputeModel_time_points failingDriver 1 (by decide) (fun _ => 0) exY exDynZero
      (List.replicate 24 0) 7 0 [3, 7] (by decide) rfl).2.1 (by
        intro x hx
        simp only [List.mem_cons, List.mem_singleton, List.not_mem_nil, or_false] at hx
        rcases hx with rfl | rfl <;> norm_num),
    (zikaComputeModel_time_points driftDriver 1 (by decide) (fun _ => 0) exY exDynZero
      (List.replicate 16 0) 7 0 [14] (by decide) rfl).2.2.1 14 () 14
      (exY.map (fun v => v + (14 - 7))) rfl (by norm_num) rfl (le_refl _) rfl,
    by with_unfolding_all rfl, by with_unfolding_all rfl⟩

/-! ## The shared parameter buffer -/

/-- Two runs of a loop from related states: both fail alike, or both return and the
results are related. -/
theorem forLoop_rel {α : Type} (f : Nat → α → Res α) (R : Nat → α → α → Prop) :
    ∀ (n i : Nat) (s s' : α), R i s s' →
      (∀ k s s', i ≤ k → k < i + n → R k s s' →
        (∃ e, f k s = .error e ∧ f k s' = .error e) ∨
          ∃ s1 s1', f k s = .ok s1 ∧ f k s' = .ok s1' ∧ R (k + 1) s1 s1') →
      (∃ e, forLoop f n i s = .error e ∧ forLoop f n i s' = .error e) ∨
        ∃ r r', forLoop f n i s = .ok r ∧ forLoop f n i s' = .ok r' ∧ R (i + n) r r' := by
  intro n
  induction n with
  | zero => intro i s s' h _; exact Or.inr ⟨s, s', rfl, rfl, h⟩
  | succ n ih =>
    intro i s s' h hb
    rcases hb i s s' (le_refl i) (by omega) h with ⟨e, h1, h2⟩ | ⟨s1, s1', h1, h2, hR⟩
    · left
      refine ⟨e, ?_, ?_⟩
      · simp only [forLoop, h1]
      · simp only [forLoop, h2]
    · have := ih (i + 1) s1 s1' hR (fun k s s' hk hk2 => hb k s s' (by omega) (by omega))
      have e1 : forLoop f (n + 1) i s = forLoop f n (i + 1) s1 := by simp only [forLoop, h1]
      have e2 : forLoop f (n + 1) i s' = forLoop f n (i + 1) s1' := by simp only [forLoop, h2]
      rw [e1, e2, show i + (n + 1) = i + 1 + n by omega]
      exact this

/-- The parameter copy overwrites the whole of a buffer of `n_params` entries: its outcome
is the same for any two such buffers. -/
theorem copyParams_buffer (n : Nat) (pv D1 D2 : List ℚ) (h1 : D1.length = n)
    (h2 : D2.length = n) : copyParams n pv D1 = copyParams n pv D2 := by
  unfold copyParams
  rcases forLoop_rel (fun i D => do wr D i (← rd pv i))
    (fun k (s s' : List ℚ) => s.length = n ∧ s'.length = n ∧ ∀ j, j < k → s[j]? = s'[j]?)
    n 0 D1 D2 ⟨h1, h2, fun j hj => absurd hj (Nat.not_lt_zero j)⟩
    (by
      intro k s s' _ hk ⟨hl, hl', hlo⟩
      cases hq : pv[k]? with
      | none =>
        left
        refine ⟨.outOfRange, ?_, ?_⟩ <;> simp only [rd_none hq, error_bind]
      | some v =>
        right
        have hks : k < s.length := by omega
        have hks' : k < s'.length := by omega
        refine ⟨s.set k v, s'.set k v, ?_, ?_, ?_, ?_, ?_⟩
        · simp only [rd_some hq, ok_bind, wr_of_lt _ hks]
        · simp only [rd_some hq, ok_bind, wr_of_lt _ hks']
        · rw [List.length_set]; exact hl
        · rw [List.length_set]; exact hl'
        · intro j hj
          by_cases hjk : j = k
          · subst hjk
            simp only [List.getElem?_set, hks, hks', if_true]
          · rw [List.getElem?_set_ne (Ne.symm hjk), List.getElem?_set_ne (Ne.symm hjk)]
            exact hlo j (by omega))
    with ⟨e, e1, e2⟩ | ⟨r, r', e1, e2, hl, hl', hv⟩
  · rw [e1, e2]
  · rw [e1, e2]
    congr 1
    apply List.ext_getElem?
    intro j
    by_cases hj : j < n
    · exact hv j (by omega)
    · rw [List.getElem?_eq_none (by omega), List.getElem?_eq_none (by omega)]

/-- For a configuration with `Deltas.size() = Params_factor * N_s` (a size that fits
`unsigned int`) and one and the same content of the memory behind the buffer, the outcome
of `likelihoodRoutine` (the returned value and the buffer left behind, or the failure) is
the same for any two contents `D1`, `D2` of the buffer `Deltas` before the call. -/
theorem likelihoodRoutine_buffer_independent {σ : Type} (G : Integrator σ) (fuel : Nat)
    (junk : Nat → ℚ) (pv times ics csc : List ℚ) (var : ℚ)
    (n_s n_times inad_type pf : Nat) (D1 D2 : List ℚ) (h1 : D1.length = pf * n_s)
    (h2 : D2.length = pf * n_s) (h32 : pf * n_s < 2 ^ 32) :
    likelihoodRoutine G fuel junk pv ⟨times, ics, csc, var, ⟨n_s, n_times, inad_type, pf, D1⟩⟩ =
      likelihoodRoutine G fuel junk pv
        ⟨times, ics, csc, var, ⟨n_s, n_times, inad_type, pf, D2⟩⟩ := by
  have hc : copyParams (u32 (pf * n_s)) pv D1 = copyParams (u32 (pf * n_s)) pv D2 := by
    rw [u32_of_lt h32]
    exact copyParams_buffer (pf * n_s) pv D1 D2 h1 h2
  simp only [likelihoodRoutine, hc]

/-- The data `exData` with a buffer of zeros and with the buffer holding `exParams`. -/
theorem likelihoodRoutine_buffer_independent_witness :
    (List.replicate 14 (0 : ℚ)).length = 2 * 7 ∧ exParams.length = 2 * 7 ∧
      2 * 7 < 2 ^ 32 ∧
      likelihoodRoutine eulerDriver 1 (fun _ => 0) exParams
          ⟨[7, 14], exY, [6, 75], 2, ⟨7, 2, 1, 2, List.replicate 14 0⟩⟩ =
        likelihoodRoutine eulerDriver 1 (fun _ => 0) exParams
          ⟨[7, 14], exY, [6, 75], 2, ⟨7, 2, 1, 2, exParams⟩⟩ :=
  ⟨rfl, rfl, by decide,
    likelihoodRoutine_buffer_independent eulerDriver 1 (fun _ => 0) exParams [7, 14] exY
      [6, 75] 2 7 2 1 2 (List.replicate 14 0) exParams rfl rfl (by decide)⟩

/-! ## The allocation of the driver -/

/-- C16: `zikaComputeModel` allocates its driver (`zikaDriver`) with the stepper
`gsl_odeiv2_step_rkf45`, the initial step `1e-10`, the absolute tolerance `1e-8`, which is
the value of the macro `__EPS_ABS`, and the relative tolerance `1e-4`, which is neither the
value `1e-8` of the macro `__EPS_REL` nor equal to the absolute tolerance. -/
theorem zikaDriver_tolerances {σ : Type} (G : Integrator σ) (dyn : dynamics_info)
    (junk : Nat → ℚ) (dim : Nat) :
    zikaDriver G dyn junk dim =
        G.alloc_y_new ⟨zikaFunction dyn junk, zikaJacobian, dim⟩ .rkf45 1e-10 1e-8 1e-4 ∧
      (zikaDriver recordingDriver dyn junk dim).stepper = .rkf45 ∧
      (zikaDriver recordingDriver dyn junk dim).hstart = 1e-10 ∧
      (zikaDriver recordingDriver dyn junk dim).epsabs = __EPS_ABS ∧
      (zikaDriver recordingDriver dyn junk dim).epsrel = 1e-4 ∧
      (zikaDriver recordingDriver dyn junk dim).epsrel ≠ __EPS_REL ∧
      (zikaDriver recordingDriver dyn junk dim).epsrel ≠
        (zikaDriver recordingDriver dyn junk dim).epsabs := by
  refine ⟨rfl, rfl, rfl, rfl, rfl, ?_, ?_⟩
  · show (1e-4 : ℚ) ≠ 1e-8
    norm_num
  · show (1e-4 : ℚ) ≠ 1e-8
    norm_num

/-! ## The reads of the parameter buffer -/

/-- The inadequacy block consults `delta` at the indices `deltaIndices` only. -/
theorem inadequacy_congr_reads (inad_type n_s pf : Nat) (δ δ' : Nat → ℚ)
    (h : ∀ k ∈ deltaIndices inad_type n_s pf, δ k = δ' k) (pops d : List ℚ) :
    inadequacy inad_type n_s pf δ pops d = inadequacy inad_type n_s pf δ' pops d := by
  by_cases h0 : inad_type = 0
  · subst h0
    unfold inadequacy
    rw [if_pos rfl, if_pos rfl]
  by_cases h1 : inad_type = 1
  · subst h1
    have hm : ∀ i, i < n_s → ∀ x ∈ [u32 (pf * i + 0), u32 (pf * i + 1)], δ x = δ' x := by
      intro i hi x hx
      apply h
      unfold deltaIndices
      rw [if_neg (by decide), if_pos rfl]
      exact List.mem_flatMap.mpr ⟨i, List.mem_range.mpr hi, hx⟩
    unfold inadequacy
    rw [if_neg (by decide), if_pos rfl, if_neg (by decide), if_pos rfl]
    apply forLoop_congr
    intro k s _ hk
    have e0 := hm k (by omega) (u32 (pf * k + 0)) (List.mem_cons_self _ _)
    have e1 := hm k (by omega) (u32 (pf * k + 1))
      (List.mem_cons_of_mem _ (List.mem_cons_self _ _))
    simp only [inadBody1, e0, e1]
  by_cases h2 : inad_type = 2
  · subst h2
    have hm : ∀ i, i < n_s → ∀ x ∈ [u32 (pf * i + 0), u32 (pf * i + 1), u32 (pf * i + 2),
        u32 (pf * i + 3)], δ x = δ' x := by
      intro i hi x hx
      apply h
      unfold deltaIndices
      rw [if_neg (by decide), if_neg (by decide), if_pos rfl]
      exact List.mem_flatMap.mpr ⟨i, List.mem_range.mpr hi, hx⟩
    unfold inadequacy
    rw [if_neg (by decide), if_neg (by decide), if_pos rfl, if_neg (by decide),
      if_neg (by decide), if_pos rfl]
    apply forLoop_congr
    intro k s _ hk
    have e0 := hm k (by omega) (u32 (pf * k + 0)) (List.mem_cons_self _ _)
    have e1 := hm k (by omega) (u32 (pf * k + 1))
      (List.mem_cons_of_mem _ (List.mem_cons_self _ _))
    have e2 := hm k (by omega) (u32 (pf * k + 2))
      (List.mem_cons_of_mem _ (List.mem_cons_of_mem _ (List.mem_cons_self _ _)))
    have e3 := hm k (by omega) (u32 (pf * k + 3))
      (List.mem_cons_of_mem _ (List.mem_cons_of_mem _ (List.mem_cons_of_mem _
        (List.mem_cons_self _ _))))
    simp only [inadBody2, e0, e1, e2, e3]
  by_cases h3 : inad_type = 3
  · subst h3
    have hm : ∀ i j, i < n_s → j < n_s → ∀ x ∈ [u32 (pf * i + 2 * j + 0),
        u32 (pf * i + 2 * j + 1), u32 (pf * i + 2 * j + 2), u32 (pf * i + 2 * j + 3)],
        δ x = δ' x := by
      intro i j hi hj x hx
      apply h
      unfold deltaIndices
      rw [if_neg (by decide), if_neg (by decide), if_neg (by decide), if_pos rfl]
      exact List.mem_flatMap.mpr ⟨i, List.mem_range.mpr hi,
        List.mem_flatMap.mpr ⟨j, List.mem_range.mpr hj, hx⟩⟩
    rw [inadequacy_three, inadequacy_three]
    apply forLoop_congr
    intro i s _ hi
    apply forLoop_congr
    intro j s _ hj
    have e0 := hm i j (by omega) (by omega) (u32 (pf * i + 2 * j + 0)) (List.mem_cons_self _ _)
    have e1 := hm i j (by omega) (by omega) (u32 (pf * i + 2 * j + 1))
      (List.mem_cons_of_mem _ (List.mem_cons_self _ _))
    have e2 := hm i j (by omega) (by omega) (u32 (pf * i + 2 * j + 2))
      (List.mem_cons_of_mem _ (List.mem_cons_of_mem _ (List.mem_cons_self _ _)))
    have e3 := hm i j (by omega) (by omega) (u32 (pf * i + 2 * j + 3))
      (List.mem_cons_of_mem _ (List.mem_cons_of_mem _ (List.mem_cons_of_mem _
        (List.mem_cons_self _ _))))
    simp only [inadBody3, e0, e1, e2, e3]
  · unfold inadequacy
    rw [if_neg h0, if_neg h1, if_neg h2, if_neg h3, if_neg h0, if_neg h1, if_neg h2,
      if_neg h3]

/-- For the formulations 0, 1 and 2, with `Params_factor` equal to 1, 2 and 6, every index
at which the parameter vector is read is below `Params_factor * n_s`. -/
theorem deltaIndices_lt (inad_type n_s pf : Nat)
    (h : (inad_type = 0 ∧ pf = 1) ∨ (inad_type = 1 ∧ pf = 2) ∨ (inad_type = 2 ∧ pf = 6)) :
    ∀ k ∈ deltaIndices inad_type n_s pf, k < pf * n_s := by
  have hu : ∀ x, u32 x ≤ x := fun x => Nat.mod_le x _
  rcases h with ⟨rfl, rfl⟩ | ⟨rfl, rfl⟩ | ⟨rfl, rfl⟩
  · intro k hk
    simp only [deltaIndices, if_pos, List.not_mem_nil] at hk
  · intro k hk
    unfold deltaIndices at hk
    rw [if_neg (by decide), if_pos rfl] at hk
    obtain ⟨i, hi, hx⟩ := List.mem_flatMap.mp hk
    have hi := List.mem_range.mp hi
    simp only [List.mem_cons, List.mem_singleton, List.not_mem_nil, or_false] at hx
    rcases hx with rfl | rfl
    · have := hu (2 * i + 0); omega
    · have := hu (2 * i + 1); omega
  · intro k hk
    unfold deltaIndices at hk
    rw [if_neg (by decide), if_neg (by decide), if_pos rfl] at hk
    obtain ⟨i, hi, hx⟩ := List.mem_flatMap.mp hk
    have hi := List.mem_range.mp hi
    simp only [List.mem_cons, List.mem_singleton, List.not_mem_nil, or_false] at hx
    rcases hx with rfl | rfl | rfl | rfl
    · have := hu (6 * i + 0); omega
    · have := hu (6 * i + 1); omega
    · have := hu (6 * i + 2); omega
    · have := hu (6 * i + 3); omega

/-- For the formulations 0, 1 and 2 with a buffer of `Params_factor * N_s` entries the
right-hand side does not depend on what lies behind the buffer. -/
theorem zikaFunction_junk_irrelevant (dyn : dynamics_info) (junk junk' : Nat → ℚ)
    (h : (dyn.Inad_type = 0 ∧ dyn.Params_factor = 1) ∨
      (dyn.Inad_type = 1 ∧ dyn.Params_factor = 2) ∨
      (dyn.Inad_type = 2 ∧ dyn.Params_factor = 6))
    (hD : dyn.Deltas.length = dyn.Params_factor * dyn.N_s) (t : ℚ) (Y dYdt : List ℚ) :
    zikaFunction dyn junk t Y dYdt = zikaFunction dyn junk' t Y dYdt := by
  have hi : ∀ pops d, inadequacy dyn.Inad_type dyn.N_s dyn.Params_factor
      (rdDelta dyn.Deltas junk) pops d =
      inadequacy dyn.Inad_type dyn.N_s dyn.Params_factor (rdDelta dyn.Deltas junk') pops d := by
    intro pops d
    apply inadequacy_congr_reads
    intro k hk
    have hlt := deltaIndices_lt dyn.Inad_type dyn.N_s dyn.Params_factor h k hk
    rw [rdDelta_of_lt junk (by omega), rdDelta_of_lt junk' (by omega)]
  simp only [zikaFunction, hi]

/-- The cross-term formulation with `Params_factor = 2 * n_s` reads the two indices
`2 * n_s * n_s` and `2 * n_s * n_s + 1`, in its last pass (`i = j = n_s - 1`). -/
theorem deltaIndices_cross_past_end (n_s : Nat) (h0 : 0 < n_s)
    (h32 : 2 * n_s * n_s + 1 < 2 ^ 32) :
    2 * n_s * n_s ∈ deltaIndices 3 n_s (2 * n_s) ∧
      2 * n_s * n_s + 1 ∈ deltaIndices 3 n_s (2 * n_s) := by
  obtain ⟨m, rfl⟩ : ∃ m, n_s = m + 1 := ⟨n_s - 1, by omega⟩
  have e : 2 * (m + 1) * m + 2 * m + 2 = 2 * (m + 1) * (m + 1) := by ring
  have e2 : u32 (2 * (m + 1) * m + 2 * m + 2) = 2 * (m + 1) * (m + 1) := by
    rw [e]; exact u32_of_lt (by omega)
  have e3 : u32 (2 * (m + 1) * m + 2 * m + 3) = 2 * (m + 1) * (m + 1) + 1 := by
    rw [show 2 * (m + 1) * m + 2 * m + 3 = 2 * (m + 1) * (m + 1) + 1 by omega]
    exact u32_of_lt (by omega)
  unfold deltaIndices
  rw [if_neg (by decide), if_neg (by decide), if_neg (by decide), if_pos rfl]
  constructor
  · refine List.mem_flatMap.mpr ⟨m, List.mem_range.mpr (by omega),
      List.mem_flatMap.mpr ⟨m, List.mem_range.mpr (by omega), ?_⟩⟩
    rw [← e2]
    exact List.mem_cons_of_mem _ (List.mem_cons_of_mem _ (List.mem_cons_self _ _))
  · refine List.mem_flatMap.mpr ⟨m, List.mem_range.mpr (by omega),
      List.mem_flatMap.mpr ⟨m, List.mem_range.mpr (by omega), ?_⟩⟩
    rw [← e3]
    exact List.mem_cons_of_mem _ (List.mem_cons_of_mem _ (List.mem_cons_of_mem _
      (List.mem_cons_self _ _)))

set_option maxRecDepth 100000 in
/-- C18, failing input: with the cross-term formulation (`Inad_type = 3`, `N_s = 7`,
`Params_factor = 2 * N_s = 14`) and a buffer of `Params_factor * N_s = 98` entries,
`zikaFunction` reads `delta[98]` and `delta[99]`, which are not below the size of the
buffer; at the state `exYVector` the returned `dYdt[6]` is `-1/11` when the read of
`delta[98]` yields `0` and `10/11` when it yields `1`. -/
theorem zikaFunction_reads_past_end :
    (exDynCross.Inad_type = 3 ∧ exDynCross.N_s = 7 ∧
        exDynCross.Params_factor = 2 * exDynCross.N_s ∧
        exDynCross.Deltas.length = exDynCross.Params_factor * exDynCross.N_s) ∧
      (98 ∈ deltaIndices exDynCross.Inad_type exDynCross.N_s exDynCross.Params_factor ∧
        99 ∈ deltaIndices exDynCross.Inad_type exDynCross.N_s exDynCross.Params_factor ∧
        ¬ 98 < exDynCross.Deltas.length ∧ ¬ 99 < exDynCross.Deltas.length) ∧
      zikaFunction exDynCross (fun _ => 0) 7 exYVector (List.replicate 8 0) =
        .ok (GSL_SUCCESS, [-887 / 113, 11170 / 113, 0, 10, -79 / 1771600000,
          79 / 1771600000, -1 / 11, 10]) ∧
      zikaFunction exDynCross (fun k => if k = 98 then 1 else 0) 7 exYVector
          (List.replicate 8 0) =
        .ok (GSL_SUCCESS, [-887 / 113, 11170 / 113, 0, 10, -79 / 1771600000,
          79 / 1771600000, 10 / 11, 10]) ∧
      zikaFunction exDynCross (fun _ => 0) 7 exYVector (List.replicate 8 0) ≠
        zikaFunction exDynCross (fun k => if k = 98 then 1 else 0) 7 exYVector
          (List.replicate 8 0) := by
  have ha : zikaFunction exDynCross (fun _ => 0) 7 exYVector (List.replicate 8 0) =
      .ok (GSL_SUCCESS, [-887 / 113, 11170 / 113, 0, 10, -79 / 1771600000,
        79 / 1771600000, -1 / 11, 10]) := by with_unfolding_all rfl
  have hb : zikaFunction exDynCross (fun k => if k = 98 then 1 else 0) 7 exYVector
      (List.replicate 8 0) =
      .ok (GSL_SUCCESS, [-887 / 113, 11170 / 113, 0, 10, -79 / 1771600000,
        79 / 1771600000, 10 / 11, 10]) := by with_unfolding_all rfl
  have hm := deltaIndices_cross_past_end 7 (by decide) (by decide)
  refine ⟨⟨rfl, rfl, rfl, rfl⟩, ⟨hm.1, hm.2, ?_, ?_⟩, ha, hb, ?_⟩
  · show ¬ 98 < ((List.replicate 98 (0 : ℚ)).set 14 1).length
    rw [List.length_set, List.length_replicate]; decide
  · show ¬ 99 < ((List.replicate 98 (0 : ℚ)).set 14 1).length
    rw [List.length_set, List.length_replicate]; decide
  · rw [ha, hb]
    intro hc
    have h6 : ([-887 / 113, 11170 / 113, 0, 10, -79 / 1771600000, 79 / 1771600000,
        -1 / 11, 10] : List ℚ).getD 6 0 =
        ([-887 / 113, 11170 / 113, 0, 10, -79 / 1771600000, 79 / 1771600000,
          10 / 11, 10] : List ℚ).getD 6 0 := by
      injection hc with hc
      injection hc with _ hc
      rw [hc]
    simp only [List.getD_cons_succ, List.getD_cons_zero] at h6
    norm_num at h6

/-! ## The memory behind the parameter buffer and `likelihoodRoutine` -/

/-- When the parameter copy returns, the buffer has kept its size. -/
theorem copyParams_length (n : Nat) (pv D D1 : List ℚ) (h : copyParams n pv D = .ok D1) :
    D1.length = D.length := by
  have := forLoop_inv_of_ok (fun i D => do wr D i (← rd pv i))
    (fun _ (s : List ℚ) => s.length = D.length) n 0 D D1 rfl
    (by
      intro k s s1 _ _ hl hb
      obtain ⟨v, _, hw⟩ := bind_ok hb
      obtain ⟨_, rfl⟩ := wr_ok hw
      rw [List.length_set]
      exact hl)
    h
  exact this

/-- For the formulations 0, 1 and 2 with a buffer of `Params_factor * N_s` entries the
outcome of `likelihoodRoutine` depends neither on the contents of the buffer before the
call nor on what lies behind the buffer. -/
theorem likelihoodRoutine_independent_in_range {σ : Type} (G : Integrator σ) (fuel : Nat)
    (junk junk' : Nat → ℚ) (pv times ics csc : List ℚ) (var : ℚ)
    (n_s n_times inad_type pf : Nat) (D1 D2 : List ℚ)
    (h : (inad_type = 0 ∧ pf = 1) ∨ (inad_type = 1 ∧ pf = 2) ∨ (inad_type = 2 ∧ pf = 6))
    (h1 : D1.length = pf * n_s) (h2 : D2.length = pf * n_s) (h32 : pf * n_s < 2 ^ 32) :
    likelihoodRoutine G fuel junk pv ⟨times, ics, csc, var, ⟨n_s, n_times, inad_type, pf, D1⟩⟩ =
      likelihoodRoutine G fuel junk' pv
        ⟨times, ics, csc, var, ⟨n_s, n_times, inad_type, pf, D2⟩⟩ := by
  have hc : copyParams (u32 (pf * n_s)) pv D1 = copyParams (u32 (pf * n_s)) pv D2 := by
    rw [u32_of_lt h32]
    exact copyParams_buffer (pf * n_s) pv D1 D2 h1 h2
  cases hT : copyTimes n_times times with
  | error e => simp only [likelihoodRoutine, hT, error_bind]
  | ok tp =>
    cases hD2 : copyParams (u32 (pf * n_s)) pv D2 with
    | error e =>
      have hD1 := hc.trans hD2
      simp only [likelihoodRoutine, hT, hD1, hD2, ok_bind, error_bind]
    | ok D =>
      have hD1 := hc.trans hD2
      have hl : D.length = pf * n_s := by
        rw [copyParams_length _ _ _ _ hD2]; exact h2
      have hf : zikaFunction ⟨n_s, n_times, inad_type, pf, D⟩ junk =
          zikaFunction ⟨n_s, n_times, inad_type, pf, D⟩ junk' := by
        funext t Y dYdt
        exact zikaFunction_junk_irrelevant ⟨n_s, n_times, inad_type, pf, D⟩ junk junk' h hl
          t Y dYdt
      have hd : ∀ dim, zikaDriver G ⟨n_s, n_times, inad_type, pf, D⟩ junk dim =
          zikaDriver G ⟨n_s, n_times, inad_type, pf, D⟩ junk' dim := by
        intro dim
        unfold zikaDriver
        rw [hf]
      simp only [likelihoodRoutine, hT, hD1, hD2, ok_bind, zikaComputeModel, hd]

set_option maxRecDepth 1000000 in
/-- C14, failing input: with the cross-term formulation (`Inad_type = 3`, `N_s = 7`,
`Params_factor = 2 * N_s`, a buffer and a parameter vector of `Params_factor * N_s = 98`
zeros, four weekly time points) the value returned by `likelihoodRoutine` for one and the
same input depends on what the read of `delta[98]` past the end of the buffer yields:
`-114222364625/88897778` when it yields `0` and
`-7259245533218888827925/478120303466905682` when it yields `1`. -/
theorem likelihoodRoutine_cross_reads_residue :
    (exDataCross.m_dynMain.Inad_type = 3 ∧
        exDataCross.m_dynMain.Params_factor = 2 * exDataCross.m_dynMain.N_s ∧
        exDataCross.m_dynMain.Deltas.length =
          exDataCross.m_dynMain.Params_factor * exDataCross.m_dynMain.N_s ∧
        (List.replicate 98 (0 : ℚ)).length =
          exDataCross.m_dynMain.Params_factor * exDataCross.m_dynMain.N_s ∧
        exDataCross.m_times.length = exDataCross.m_dynMain.N_times) ∧
      likelihoodRoutine eulerDriver 1 (fun _ => 0) (List.replicate 98 0) exDataCross =
        .ok (-114222364625 / 88897778, List.replicate 98 0) ∧
      likelihoodRoutine eulerDriver 1 (fun k => if k = 98 then 1 else 0) (List.replicate 98 0)
          exDataCross =
        .ok (-7259245533218888827925 / 478120303466905682, List.replicate 98 0) ∧
      (-114222364625 / 88897778 : ℚ) ≠ -7259245533218888827925 / 478120303466905682 := by
  refine ⟨⟨rfl, rfl, rfl, rfl, rfl⟩, by with_unfolding_all rfl, by with_unfolding_all rfl, ?_⟩
  norm_num

/-! ## Evaluation of the properties of `zikaFunction` at concrete inputs -/

/-- Witness of C11 at the configuration `exDynNone` and the state `exY`. -/
theorem zikaFunction_none_human_sum_witness :
    (exDynNone.N_s = 7 ∧ exDynNone.Inad_type = 0 ∧ exY.length = 8 ∧
        (List.replicate 8 (0 : ℚ)).length = 8) ∧
      ∃ dY, zikaFunction exDynNone (fun _ => 0) 7 exY (List.replicate 8 0) =
          .ok (GSL_SUCCESS, dY) ∧ dY.length = 8 ∧
        dY.getD 0 0 + dY.getD 1 0 + dY.getD 2 0 + dY.getD 3 0 = 0 :=
  ⟨⟨rfl, rfl, rfl, rfl⟩,
    zikaFunction_none_human_sum exDynNone (fun _ => 0) 7 exY (List.replicate 8 0)
      rfl rfl rfl rfl⟩

/-- Witness of C13 at the cross-term configuration `exDynCross` and a state with a negative
entry. -/
theorem zikaFunction_incidence_nonneg_witness :
    (exDynCross.N_s = 7 ∧ ([100, -59, 79, 0, 1, 0, 0, 5] : List ℚ).length = 8 ∧
        (List.replicate 8 (0 : ℚ)).length = 8) ∧
      ∃ dY v, zikaFunction exDynCross (fun _ => 0) 7 [100, -59, 79, 0, 1, 0, 0, 5]
          (List.replicate 8 0) = .ok (GSL_SUCCESS, dY) ∧ dY[7]? = some v ∧ 0 ≤ v :=
  ⟨⟨rfl, rfl, rfl⟩,
    zikaFunction_incidence_nonneg exDynCross (fun _ => 0) 7 [100, -59, 79, 0, 1, 0, 0, 5]
      (List.replicate 8 0) rfl rfl rfl⟩

/-- Witness of C12 at the configurations `exDynNone` and `exDynZero`, with the driver
`eulerDriver`, the initial condition `exY` and the times 7 and 14. -/
theorem zikaComputeModel_none_eq_linear_zero_witness :
    (exDynNone.N_s = 7 ∧ exDynNone.Inad_type = 0 ∧ exDynZero.N_s = 7 ∧
        exDynZero.Inad_type = 1 ∧ exDynZero.Params_factor = 2 ∧
        exDynZero.Deltas = List.replicate 14 0) ∧
      zikaComputeModel eulerDriver 1 (fun _ => 0) exY [7, 14] exDynNone
          (List.replicate 16 0) =
        zikaComputeModel eulerDriver 1 (fun _ => 0) exY [7, 14] exDynZero
          (List.replicate 16 0) :=
  ⟨⟨rfl, rfl, rfl, rfl, rfl, rfl⟩,
    (zikaComputeModel_none_eq_linear_zero eulerDriver 1 (fun _ => 0) exDynNone exDynZero
      rfl rfl rfl rfl rfl rfl).2 exY [7, 14] (List.replicate 16 0)⟩

end ARBO
